import Mathlib

/-!
Verification development for the H.264 access-unit rewriter in `src/main.c`
(ndi2srt).  The C functions that the claims concern are embedded shallowly:
byte buffers become `List Nat` (each element a byte value), the bit
reader/writer become explicit state records, GLib byte arrays become lists,
and fallible C functions returning `NULL` become `Option`-valued functions.
Machine-width effects (`guint32` multiplication, `guint8` shifts) are kept
as explicit `% 256` / `% 2^32` operations at the places the C source has
them.
-/

set_option maxHeartbeats 1000000
set_option maxRecDepth 16384

/-! ## RBSP / EBSP codec (`epb_safe_append`, `ebsp_to_rbsp`, `main.c` 362-372, 928-942) -/

/-- `epb_safe_append` from `main.c`: append `byte` to `arr`, first inserting an
emulation-prevention `0x03` byte when the last two emitted bytes are both zero
and `byte ≤ 3`. -/
def epb_safe_append (arr : List Nat) (byte : Nat) : List Nat :=
  if 2 ≤ arr.length ∧ arr.getD (arr.length - 2) 0 = 0 ∧ arr.getD (arr.length - 1) 0 = 0 ∧ byte ≤ 3
  then arr ++ [3, byte] else arr ++ [byte]

/-- RBSP→EBSP conversion: the `epb_safe_append` emission rule applied to each
byte in turn, starting from an empty output (spec §4.C). -/
def rbsp_to_ebsp (x : List Nat) : List Nat := x.foldl epb_safe_append []

/-- Loop body of `ebsp_to_rbsp` from `main.c`: scan bytes keeping a count of
consecutive zeros; drop a `0x03` byte that follows at least two zeros. -/
def ebsp_to_rbsp_go : Nat → List Nat → List Nat
  | _, [] => []
  | zeros, b :: rest =>
    if 2 ≤ zeros ∧ b = 3 then ebsp_to_rbsp_go 0 rest
    else b :: ebsp_to_rbsp_go (if b = 0 then zeros + 1 else 0) rest

/-- `ebsp_to_rbsp` from `main.c` 928-942. -/
def ebsp_to_rbsp (ebsp : List Nat) : List Nat := ebsp_to_rbsp_go 0 ebsp

/-- Scanning loop deciding the forbidden pattern of claim C3 (state = count of
consecutive zeros seen so far). -/
def hasForbidden_go : Nat → List Nat → Bool
  | zeros, b :: rest =>
    if 2 ≤ zeros ∧ b ≤ 3 then true
    else hasForbidden_go (if b = 0 then zeros + 1 else 0) rest
  | _, [] => false

/-- Decision procedure for the forbidden pattern of claim C3: two consecutive
zero bytes followed by a byte `≤ 3`. -/
def hasForbidden (l : List Nat) : Bool := hasForbidden_go 0 l

/-- Trailing-zero state of an emitted byte list, capped at 2: exactly the
information `epb_safe_append` inspects. -/
def tz2 (l : List Nat) : Nat :=
  match l.reverse with
  | 0 :: 0 :: _ => 2
  | 0 :: _ => 1
  | _ => 0

/-- The bytes `epb_safe_append` emits for the byte sequence `xs`, starting
from trailing-zero state `z` (proof-side reformulation of the fold). -/
def emitFrom : Nat → List Nat → List Nat
  | _, [] => []
  | z, b :: rest =>
    if 2 ≤ z ∧ b ≤ 3 then 3 :: b :: emitFrom (if b = 0 then 1 else 0) rest
    else b :: emitFrom (if b = 0 then min (z + 1) 2 else 0) rest

/-! ## NAL scanner (`find_startcode`, `startcode_len_at`, `main.c` 388-404) -/

/-- Scanning loop of `find_startcode`; the fuel argument keeps the recursion
structural and equals `data.length - i` at every reachable state, so fuel `0`
coincides with the loop guard `i + 3 < size` failing. -/
def find_startcode_go (data : List Nat) : Nat → Nat → Option Nat
  | _, 0 => none
  | i, fuel + 1 =>
    if i + 3 < data.length then
      if data.getD i 0 = 0 ∧ data.getD (i+1) 0 = 0 then
        if data.getD (i+2) 0 = 1 then some i
        else if i + 4 < data.length ∧ data.getD (i+2) 0 = 0 ∧ data.getD (i+3) 0 = 1 then some i
        else find_startcode_go data (i+1) fuel
      else find_startcode_go data (i+1) fuel
    else none

/-- `find_startcode` from `main.c`: first index `i ≥ from` with `i + 3 < size`
holding a 3-byte (`00 00 01`) or, when `i + 4 < size`, 4-byte (`00 00 00 01`)
start code; `none` plays the role of the C return value `-1`. -/
def find_startcode (data : List Nat) (i : Nat) : Option Nat :=
  find_startcode_go data i (data.length - i)

/-- `startcode_len_at` from `main.c`: 3 or 4 when `pos` holds a start code
(with enough bytes in range), 0 otherwise. -/
def startcode_len_at (data : List Nat) (pos : Nat) : Nat :=
  if pos + 3 < data.length ∧ data.getD pos 0 = 0 ∧ data.getD (pos+1) 0 = 0 then
    if data.getD (pos+2) 0 = 1 then 3
    else if pos + 4 < data.length ∧ data.getD (pos+2) 0 = 0 ∧ data.getD (pos+3) 0 = 1 then 4
    else 0
  else 0

/-! ## EPB lemmas -/

theorem getD_append_left {l l' : List Nat} {n : Nat} (h : n < l.length) :
    (l ++ l').getD n 0 = l.getD n 0 := by
  simp [List.getD_eq_getElem?_getD, List.getElem?_append_left h]

theorem getD_append_right {l l' : List Nat} {n : Nat} (h : l.length ≤ n) :
    (l ++ l').getD n 0 = l'.getD (n - l.length) 0 := by
  simp [List.getD_eq_getElem?_getD, List.getElem?_append_right h]

theorem tz2_le_two (l : List Nat) : tz2 l ≤ 2 := by
  unfold tz2
  rcases l.reverse with _ | ⟨x, t⟩
  · simp
  · rcases x with _ | x
    · rcases t with _ | ⟨y, t'⟩
      · simp
      · rcases y with _ | y <;> simp
    · simp

/-- The condition tested by `epb_safe_append` holds exactly when the
trailing-zero state is 2. -/
theorem epb_cond_iff_tz2 (l : List Nat) :
    (2 ≤ l.length ∧ l.getD (l.length - 2) 0 = 0 ∧ l.getD (l.length - 1) 0 = 0) ↔ 2 ≤ tz2 l := by
  rcases hr : l.reverse with _ | ⟨x, t⟩
  · have hl : l = [] := by simpa using congrArg List.reverse hr
    subst hl
    simp [tz2]
  · have hl : l = t.reverse ++ [x] := by
      have := congrArg List.reverse hr
      simpa using this
    rcases t with _ | ⟨y, t'⟩
    · subst hl
      unfold tz2
      rcases x with _ | x <;> simp
    · have hl2 : l = t'.reverse ++ [y, x] := by
        rw [hl]; simp
      have hlen : l.length = t'.length + 2 := by rw [hl2]; simp
      have hgd2 : l.getD (l.length - 2) 0 = y := by
        rw [hlen, hl2]
        have he : t'.length + 2 - 2 = t'.reverse.length := by simp
        rw [he, getD_append_right (le_refl _)]
        simp
      have hgd1 : l.getD (l.length - 1) 0 = x := by
        rw [hlen, hl2]
        have h1 : t'.length + 2 - 1 = t'.reverse.length + 1 := by simp
        rw [h1, getD_append_right (by simp)]
        simp
      rw [hgd2, hgd1, hlen]
      unfold tz2
      rw [hr]
      rcases x with _ | x
      · rcases y with _ | y
        · simp
        · simp
      · simp

theorem tz2_append_one (acc : List Nat) (b : Nat) :
    tz2 (acc ++ [b]) = if b = 0 then min (tz2 acc + 1) 2 else 0 := by
  have hr : (acc ++ [b]).reverse = b :: acc.reverse := by simp
  unfold tz2
  rw [hr]
  rcases b with _ | b
  · rcases hx : acc.reverse with _ | ⟨y, t⟩
    · simp
    · rcases y with _ | y
      · rcases t with _ | ⟨w, t2⟩
        · simp
        · rcases w with _ | w <;> simp
      · simp
  · simp

theorem tz2_append_two (acc : List Nat) (b : Nat) :
    tz2 (acc ++ [3, b]) = if b = 0 then 1 else 0 := by
  have hr : (acc ++ [3, b]).reverse = b :: 3 :: acc.reverse := by simp
  unfold tz2
  rw [hr]
  rcases b with _ | b <;> simp

/-- The `epb_safe_append` fold equals the state-based emission `emitFrom`. -/
theorem foldl_epb_eq_emitFrom (xs : List Nat) :
    ∀ acc : List Nat, xs.foldl epb_safe_append acc = acc ++ emitFrom (tz2 acc) xs := by
  induction xs with
  | nil => intro acc; simp [emitFrom]
  | cons b rest ih =>
    intro acc
    rw [List.foldl_cons]
    by_cases hc : 2 ≤ acc.length ∧ acc.getD (acc.length - 2) 0 = 0 ∧
        acc.getD (acc.length - 1) 0 = 0 ∧ b ≤ 3
    · have hz : 2 ≤ tz2 acc := (epb_cond_iff_tz2 acc).1 ⟨hc.1, hc.2.1, hc.2.2.1⟩
      have hzc : 2 ≤ tz2 acc ∧ b ≤ 3 := ⟨hz, hc.2.2.2⟩
      have he : epb_safe_append acc b = acc ++ [3, b] := by
        unfold epb_safe_append; rw [if_pos hc]
      have hrhs : emitFrom (tz2 acc) (b :: rest)
          = 3 :: b :: emitFrom (if b = 0 then 1 else 0) rest := by
        simp only [emitFrom]; rw [if_pos hzc]
      rw [he, ih, tz2_append_two, hrhs]
      simp
    · have he : epb_safe_append acc b = acc ++ [b] := by
        unfold epb_safe_append; rw [if_neg hc]
      have hz : ¬ (2 ≤ tz2 acc ∧ b ≤ 3) := by
        intro hp
        have hcc := (epb_cond_iff_tz2 acc).2 hp.1
        exact hc ⟨hcc.1, hcc.2.1, hcc.2.2, hp.2⟩
      have hrhs : emitFrom (tz2 acc) (b :: rest)
          = b :: emitFrom (if b = 0 then min (tz2 acc + 1) 2 else 0) rest := by
        simp only [emitFrom]; rw [if_neg hz]
      rw [he, ih, tz2_append_one, hrhs]
      simp

theorem ebsp_go_drop {z b : Nat} {rest : List Nat} (h2 : 2 ≤ z) (hb : b = 3) :
    ebsp_to_rbsp_go z (b :: rest) = ebsp_to_rbsp_go 0 rest := by
  simp only [ebsp_to_rbsp_go]
  rw [if_pos ⟨h2, hb⟩]

theorem ebsp_go_keep {z b : Nat} {rest : List Nat} (h : ¬ (2 ≤ z ∧ b = 3)) :
    ebsp_to_rbsp_go z (b :: rest) = b :: ebsp_to_rbsp_go (if b = 0 then z + 1 else 0) rest := by
  simp only [ebsp_to_rbsp_go]
  rw [if_neg h]

theorem ebsp_go_cap (l : List Nat) :
    ∀ z z' : Nat, min z 2 = min z' 2 → ebsp_to_rbsp_go z l = ebsp_to_rbsp_go z' l := by
  induction l with
  | nil => intro z z' _; rfl
  | cons b rest ih =>
    intro z z' h
    have h2 : (2 ≤ z) ↔ (2 ≤ z') := by omega
    by_cases hz : 2 ≤ z ∧ b = 3
    · rw [ebsp_go_drop hz.1 hz.2, ebsp_go_drop (h2.1 hz.1) hz.2]
    · have hz' : ¬ (2 ≤ z' ∧ b = 3) := fun hp => hz ⟨h2.2 hp.1, hp.2⟩
      rw [ebsp_go_keep hz, ebsp_go_keep hz']
      by_cases hb : b = 0
      · simp only [if_pos hb]
        exact congrArg _ (ih (z + 1) (z' + 1) (by omega))
      · rw [if_neg hb, if_neg hb]

/-- Decoding inverts emission, for every byte list and every starting state. -/
theorem ebsp_go_emitFrom (xs : List Nat) :
    ∀ z : Nat, ebsp_to_rbsp_go z (emitFrom z xs) = xs := by
  induction xs with
  | nil => intro z; rfl
  | cons b rest ih =>
    intro z
    by_cases hc : 2 ≤ z ∧ b ≤ 3
    · have hlhs : emitFrom z (b :: rest)
          = 3 :: b :: emitFrom (if b = 0 then 1 else 0) rest := by
        simp only [emitFrom]; rw [if_pos hc]
      rw [hlhs, ebsp_go_drop hc.1 rfl, ebsp_go_keep (by omega : ¬ (2 ≤ 0 ∧ b = 3))]
      by_cases hb : b = 0
      · simp only [if_pos hb]
        exact congrArg _ (ih 1)
      · rw [if_neg hb]
        exact congrArg _ (ih 0)
    · have hno : ¬ (2 ≤ z ∧ b = 3) := by
        intro hp; exact hc ⟨hp.1, by omega⟩
      have hlhs : emitFrom z (b :: rest)
          = b :: emitFrom (if b = 0 then min (z + 1) 2 else 0) rest := by
        simp only [emitFrom]; rw [if_neg hc]
      rw [hlhs, ebsp_go_keep hno]
      by_cases hb : b = 0
      · simp only [if_pos hb]
        refine congrArg _ ?_
        rw [ebsp_go_cap _ (z + 1) (min (z + 1) 2) (by omega)]
        exact ih _
      · rw [if_neg hb, if_neg hb]
        exact congrArg _ (ih 0)

/-- C3: for every byte sequence `x` free of the pattern `00 00 (b ≤ 03)`,
converting `x` to EBSP with the `epb_safe_append` emission rule and back with
`ebsp_to_rbsp` returns exactly `x`. -/
theorem c3_rbsp_ebsp_roundtrip (x : List Nat) (_h : hasForbidden x = false) :
    ebsp_to_rbsp (rbsp_to_ebsp x) = x := by
  unfold rbsp_to_ebsp ebsp_to_rbsp
  rw [foldl_epb_eq_emitFrom]
  have hz : tz2 [] = 0 := by decide
  rw [hz]
  simpa using ebsp_go_emitFrom x 0

/-- Witness for C3 at the concrete input `[0, 0, 5]`. -/
theorem c3_rbsp_ebsp_roundtrip_witness :
    hasForbidden [0, 0, 5] = false ∧ ebsp_to_rbsp (rbsp_to_ebsp [0, 0, 5]) = [0, 0, 5] :=
  ⟨by decide, c3_rbsp_ebsp_roundtrip [0, 0, 5] (by decide)⟩

/-! ## Scanner lemmas (C10) -/

theorem find_startcode_go_sound (data : List Nat) :
    ∀ fuel i j, find_startcode_go data i fuel = some j →
      j + startcode_len_at data j < data.length ∧ 3 ≤ startcode_len_at data j := by
  intro fuel
  induction fuel with
  | zero =>
    intro i j hf
    exact absurd hf (by simp [find_startcode_go])
  | succ n ih =>
    intro i j hf
    unfold find_startcode_go at hf
    by_cases hlen : i + 3 < data.length
    · rw [if_pos hlen] at hf
      by_cases h00 : data.getD i 0 = 0 ∧ data.getD (i+1) 0 = 0
      · rw [if_pos h00] at hf
        have hcond : i + 3 < data.length ∧ data.getD i 0 = 0 ∧ data.getD (i+1) 0 = 0 :=
          ⟨hlen, h00.1, h00.2⟩
        by_cases h1 : data.getD (i+2) 0 = 1
        · rw [if_pos h1] at hf
          have hj : j = i := by simpa using hf.symm
          subst hj
          have hsl : startcode_len_at data j = 3 := by
            unfold startcode_len_at
            rw [if_pos hcond, if_pos h1]
          rw [hsl]; omega
        · rw [if_neg h1] at hf
          by_cases h4 : i + 4 < data.length ∧ data.getD (i+2) 0 = 0 ∧ data.getD (i+3) 0 = 1
          · rw [if_pos h4] at hf
            have hj : j = i := by simpa using hf.symm
            subst hj
            have hsl : startcode_len_at data j = 4 := by
              unfold startcode_len_at
              rw [if_pos hcond, if_neg h1, if_pos h4]
            rw [hsl]; omega
          · rw [if_neg h4] at hf
            exact ih (i+1) j hf
      · rw [if_neg h00] at hf
        exact ih (i+1) j hf
    · rw [if_neg hlen] at hf
      exact absurd hf (by simp)

/-- C10: whenever `find_startcode` finds a start code at `j`, at least one
byte follows the complete start code (`j + startcode_len_at data j <
data.length`, with a genuine 3- or 4-byte code there), so the NAL header read
after every discovered start code is in bounds; and a buffer that is exactly a
bare 3-byte start code yields no hit. -/
theorem c10_find_startcode_header_in_bounds :
    (∀ (data : List Nat) (i j : Nat), find_startcode data i = some j →
      j + startcode_len_at data j < data.length ∧ 3 ≤ startcode_len_at data j) ∧
    find_startcode [0, 0, 1] 0 = none := by
  constructor
  · intro data i j hf
    exact find_startcode_go_sound data (data.length - i) i j hf
  · decide

/-- Witness for C10: the universal part applied at a concrete buffer holding a
4-byte start code plus one header byte. -/
theorem c10_find_startcode_header_in_bounds_witness :
    find_startcode [0, 0, 0, 1, 101] 0 = some 0 ∧
      0 + startcode_len_at [0, 0, 0, 1, 101] 0 < 5 ∧ 3 ≤ startcode_len_at [0, 0, 0, 1, 101] 0 :=
  ⟨by decide, c10_find_startcode_header_in_bounds.1 [0, 0, 0, 1, 101] 0 0 (by decide)⟩

/-! ## Bit writer (`BitWriter`, `main.c` 728-778) -/

/-- `BitWriter` from `main.c`: accumulated whole bytes, the partially filled
current byte, and how many of its bits are filled (0..7). -/
structure BitWriter where
  bytes : List Nat
  current : Nat
  bits_filled : Nat
deriving DecidableEq, Repr

/-- `bw_put_bit`: shift the bit into the current byte (`guint8` arithmetic,
hence `% 256`); emit the byte once 8 bits are filled. -/
def bw_put_bit (bw : BitWriter) (bit : Nat) : BitWriter :=
  let cur := ((bw.current <<< 1) ||| (bit &&& 1)) % 256
  if bw.bits_filled + 1 = 8 then ⟨bw.bytes ++ [cur], 0, 0⟩
  else ⟨bw.bytes, cur, bw.bits_filled + 1⟩

/-- `bw_put_bits`: emit `value`'s bits most-significant first
(`for i = num_bits-1 downto 0`). -/
def bw_put_bits (bw : BitWriter) (value : Nat) : Nat → BitWriter
  | 0 => bw
  | n + 1 => bw_put_bits (bw_put_bit bw ((value >>> n) &&& 1)) value n

/-- Padding loop of `bw_put_rbsp_trailing_bits` (`while bits_filled ≠ 0 put 0`);
fuel 8 bounds the loop, which runs at most 7 times from any reachable state. -/
def bw_put_rbsp_trailing_go : Nat → BitWriter → BitWriter
  | 0, bw => bw
  | n + 1, bw => if bw.bits_filled = 0 then bw else bw_put_rbsp_trailing_go n (bw_put_bit bw 0)

/-- `bw_put_rbsp_trailing_bits`: append a single `1` bit, then zero bits to the
byte boundary. -/
def bw_put_rbsp_trailing_bits (bw : BitWriter) : BitWriter :=
  bw_put_rbsp_trailing_go 8 (bw_put_bit bw 1)

/-- Inner loop of `bw_flush_zero_align`: shift zeros into the current byte
until it completes, then emit it. -/
def bw_flush_go : Nat → BitWriter → BitWriter
  | 0, bw => bw
  | n + 1, bw =>
    let cur := (bw.current <<< 1) % 256
    if bw.bits_filled + 1 = 8 then ⟨bw.bytes ++ [cur], 0, 0⟩
    else bw_flush_go n ⟨bw.bytes, cur, bw.bits_filled + 1⟩

/-- `bw_flush_zero_align` from `main.c`. -/
def bw_flush_zero_align (bw : BitWriter) : BitWriter :=
  if 0 < bw.bits_filled then bw_flush_go 8 bw else bw

/-! ## Picture Timing SEI builder (`build_pic_timing_sei_nal`, `main.c` 838-885) -/

/-- Size-byte loop of the SEI assembly (`while total ≥ 255 emit 0xFF`); the
fuel equals the initial total, which bounds the iteration count. -/
def sei_size_append_go : Nat → List Nat → Nat → List Nat
  | 0, arr, total => epb_safe_append arr total
  | fuel + 1, arr, total =>
    if 255 ≤ total then sei_size_append_go fuel (epb_safe_append arr 255) (total - 255)
    else epb_safe_append arr total

def sei_size_append (arr : List Nat) (total : Nat) : List Nat :=
  sei_size_append_go total arr total

/-- `build_pic_timing_sei_nal` from `main.c`: build the Picture Timing payload
bit-by-bit, byte-align it, then assemble the Annex B SEI NAL with
emulation-prevention-safe emission. -/
def build_pic_timing_sei_nal (drop_frame : Bool) (frame seconds minutes hours : Nat)
    (include_time_offset : Bool) : List Nat :=
  let bw : BitWriter := ⟨[], 0, 0⟩
  let bw := bw_put_bits bw 0 4
  let bw := bw_put_bits bw 1 1
  let bw := bw_put_bits bw 0 2
  let bw := bw_put_bits bw 0 1
  let bw := bw_put_bits bw 0 5
  let bw := bw_put_bits bw 1 1
  let bw := bw_put_bits bw 0 1
  let bw := bw_put_bits bw (if drop_frame then 1 else 0) 1
  let bw := bw_put_bits bw (frame &&& 255) 8
  let bw := bw_put_bits bw (seconds &&& 63) 6
  let bw := bw_put_bits bw (minutes &&& 63) 6
  let bw := bw_put_bits bw (hours &&& 31) 5
  let bw := if include_time_offset then bw_put_bits bw 0 24 else bw
  let bw := bw_flush_zero_align bw
  let payload := bw.bytes
  let sei : List Nat := [0, 0, 0, 1, 6]
  let sei := epb_safe_append sei 1
  let sei := sei_size_append sei payload.length
  let sei := payload.foldl epb_safe_append sei
  epb_safe_append sei 128

/-! ## Bit-level proof infrastructure -/

/-- Value of a big-endian bit list. -/
def bitsVal (l : List Nat) : Nat := l.foldl (fun a b => 2 * a + b) 0

/-- The bit list `bw_put_bits` emits for `value` over `n` bits. -/
def putBitsList (v n : Nat) : List Nat :=
  (List.range n).map (fun i => (v >>> (n - 1 - i)) &&& 1)

/-- Feed a whole list of bits to the writer. -/
def bw_put_bit_list (bw : BitWriter) (l : List Nat) : BitWriter := l.foldl bw_put_bit bw

/-- Bit `i` (big-endian within bytes) of a byte list: what `br_read_bit`
extracts at bit position `i`. -/
def bitAt (data : List Nat) (i : Nat) : Nat :=
  (data.getD (i / 8) 0 >>> (7 - i % 8)) &&& 1

theorem getD_drop (l : List Nat) : ∀ n k, (l.drop n).getD k 0 = l.getD (n + k) 0 := by
  induction l with
  | nil => intro n k; simp
  | cons a t ih =>
    intro n k
    cases n with
    | zero => simp
    | succ m =>
      have : (a :: t).drop (m + 1) = t.drop m := rfl
      rw [this, ih m k]
      simp [Nat.succ_add]

theorem drop_append_le (l l' : List Nat) : ∀ k, k ≤ l.length → (l ++ l').drop k = l.drop k ++ l' := by
  induction l with
  | nil =>
    intro k hk
    have : k = 0 := by simpa using hk
    subst this
    simp
  | cons a t ih =>
    intro k hk
    cases k with
    | zero => simp
    | succ m => simpa using ih m (by simpa using hk)

theorem and_one_of_le_one {b : Nat} (hb : b ≤ 1) : b &&& 1 = b := by
  rw [Nat.and_one_is_mod]
  omega

theorem two_mul_or_one (c : Nat) : 2 * c ||| 1 = 2 * c + 1 := by
  apply Nat.eq_of_testBit_eq
  intro i
  rw [Nat.testBit_or]
  cases i with
  | zero =>
    simp only [Nat.testBit_to_div_mod, Nat.pow_zero, Nat.div_one]
    have h1 : 2 * c % 2 = 0 := by omega
    have h2 : (2 * c + 1) % 2 = 1 := by omega
    simp [h1, h2]
  | succ j =>
    have h2 : 2 ^ (j + 1) = 2 * 2 ^ j := by ring
    simp only [Nat.testBit_to_div_mod, h2]
    have hp : 0 < 2 ^ j := Nat.pos_pow_of_pos j (by omega)
    have e1 : 2 * c / (2 * 2 ^ j) = c / 2 ^ j := by
      rw [Nat.mul_div_mul_left _ _ (by omega)]
    have e2 : (2 * c + 1) / (2 * 2 ^ j) = c / 2 ^ j := by
      rw [← Nat.div_div_eq_div_mul]
      congr 1
      omega
    have e3 : 1 / (2 * 2 ^ j) = 0 := Nat.div_eq_of_lt (by omega)
    rw [e1, e2, e3]
    simp

theorem or_bit_eq_add (c b : Nat) (hb : b ≤ 1) : (c <<< 1) ||| b = 2 * c + b := by
  have hs : c <<< 1 = 2 * c := by rw [Nat.shiftLeft_eq]; ring
  rcases (by omega : b = 0 ∨ b = 1) with h | h
  · subst h; simp [hs]
  · subst h; rw [hs]; exact two_mul_or_one c

theorem bw_put_bit_eq (bw : BitWriter) (b : Nat) (hb : b ≤ 1) (hc : bw.current < 128) :
    bw_put_bit bw b = if bw.bits_filled + 1 = 8 then ⟨bw.bytes ++ [2 * bw.current + b], 0, 0⟩
      else ⟨bw.bytes, 2 * bw.current + b, bw.bits_filled + 1⟩ := by
  unfold bw_put_bit
  rw [and_one_of_le_one hb, or_bit_eq_add _ _ hb, Nat.mod_eq_of_lt (by omega)]

theorem foldl_two_mul (l : List Nat) :
    ∀ a, l.foldl (fun x b => 2 * x + b) a
      = a * 2 ^ l.length + l.foldl (fun x b => 2 * x + b) 0 := by
  induction l with
  | nil => intro a; simp
  | cons b t ih =>
    intro a
    rw [List.foldl_cons, List.foldl_cons, ih (2 * a + b), ih (2 * 0 + b)]
    simp only [List.length_cons, Nat.pow_succ]
    ring

theorem bitsVal_cons (b : Nat) (t : List Nat) :
    bitsVal (b :: t) = b * 2 ^ t.length + bitsVal t := by
  unfold bitsVal
  rw [List.foldl_cons, foldl_two_mul]
  ring_nf

theorem bitsVal_append_one (l : List Nat) (b : Nat) :
    bitsVal (l ++ [b]) = 2 * bitsVal l + b := by
  unfold bitsVal
  rw [List.foldl_append]
  simp

theorem bitsVal_lt (l : List Nat) (h : ∀ b ∈ l, b ≤ 1) : bitsVal l < 2 ^ l.length := by
  induction l with
  | nil => simp [bitsVal]
  | cons b t ih =>
    rw [bitsVal_cons]
    have hb : b ≤ 1 := h b (by simp)
    have ht : bitsVal t < 2 ^ t.length := ih (fun x hx => h x (by simp [hx]))
    have : 2 ^ (b :: t).length = 2 * 2 ^ t.length := by simp [List.length_cons]; ring
    rw [this]
    nlinarith

/-- Extracting bit `k` (big-endian) from the value of a bit list. -/
theorem bitsVal_extract (l : List Nat) :
    ∀ k, (∀ b ∈ l, b ≤ 1) → k < l.length →
      (bitsVal l >>> (l.length - 1 - k)) &&& 1 = l.getD k 0 := by
  induction l with
  | nil => intro k _ hk; simp at hk
  | cons a t ih =>
    intro k hb hk
    have ha : a ≤ 1 := hb a (by simp)
    have hbt : ∀ b ∈ t, b ≤ 1 := fun x hx => hb x (by simp [hx])
    have hvt : bitsVal t < 2 ^ t.length := bitsVal_lt t hbt
    rw [bitsVal_cons]
    cases k with
    | zero =>
      have hs : (a :: t).length - 1 - 0 = t.length := by simp
      rw [hs, Nat.shiftRight_eq_div_pow, Nat.and_one_is_mod]
      have hdz : (a * 2 ^ t.length + bitsVal t) / 2 ^ t.length = a := by
        rw [Nat.mul_comm a, Nat.mul_add_div (Nat.pos_pow_of_pos _ (by omega))]
        rw [Nat.div_eq_of_lt hvt]
        omega
      rw [hdz]
      simp only [List.getD_cons_zero]
      omega
    | succ j =>
      have hjt : j < t.length := by simpa using hk
      have hs : (a :: t).length - 1 - (j + 1) = t.length - 1 - j := by
        simp only [List.length_cons]
        omega
      rw [hs, Nat.shiftRight_eq_div_pow, Nat.and_one_is_mod]
      have hsplit : 2 ^ t.length = 2 ^ (t.length - 1 - j) * 2 ^ (j + 1) := by
        rw [← Nat.pow_add]
        congr 1
        omega
      have hnum : a * 2 ^ t.length + bitsVal t
          = 2 ^ (t.length - 1 - j) * (a * 2 ^ (j + 1)) + bitsVal t := by
        rw [hsplit]; ring
      have hdiv : (a * 2 ^ t.length + bitsVal t) / 2 ^ (t.length - 1 - j)
          = a * 2 ^ (j + 1) + bitsVal t / 2 ^ (t.length - 1 - j) := by
        rw [hnum, Nat.mul_add_div (Nat.pos_pow_of_pos _ (by omega))]
      rw [hdiv]
      have heven : a * 2 ^ (j + 1) = 2 * (a * 2 ^ j) := by rw [Nat.pow_succ]; ring
      have hmod : (a * 2 ^ (j + 1) + bitsVal t / 2 ^ (t.length - 1 - j)) % 2
          = bitsVal t / 2 ^ (t.length - 1 - j) % 2 := by
        rw [heven]
        omega
      rw [hmod]
      have hih := ih j hbt hjt
      rw [Nat.shiftRight_eq_div_pow, Nat.and_one_is_mod] at hih
      rw [hih]
      simp

/-- Invariant tying a writer state to the bit stream fed to it so far from a
fresh writer. -/
structure Represents (L : List Nat) (bw : BitWriter) : Prop where
  hbits : ∀ b ∈ L, b ≤ 1
  hlen : 8 * bw.bytes.length + bw.bits_filled = L.length
  hfill : bw.bits_filled = L.length % 8
  hcur : bw.current = bitsVal (L.drop (8 * bw.bytes.length))
  hbit : ∀ i, i < 8 * bw.bytes.length → bitAt bw.bytes i = L.getD i 0
  hbytes : ∀ v ∈ bw.bytes, v < 256

theorem Represents_nil : Represents [] ⟨[], 0, 0⟩ := by
  refine ⟨?_, ?_, ?_, ?_, ?_, ?_⟩ <;> simp [bitsVal]

theorem Represents.put_bit {L : List Nat} {bw : BitWriter} (h : Represents L bw)
    {b : Nat} (hb : b ≤ 1) : Represents (L ++ [b]) (bw_put_bit bw b) := by
  have hWle : 8 * bw.bytes.length ≤ L.length := by have := h.hlen; omega
  have hf8 : bw.bits_filled < 8 := by have := h.hfill; omega
  have hdroplen : (L.drop (8 * bw.bytes.length)).length = bw.bits_filled := by
    simp only [List.length_drop]
    have := h.hlen; omega
  have hdropbits : ∀ x ∈ L.drop (8 * bw.bytes.length), x ≤ 1 :=
    fun x hx => h.hbits x (List.drop_subset _ _ hx)
  have hcurlt : bw.current < 2 ^ bw.bits_filled := by
    rw [h.hcur, ← hdroplen]
    exact bitsVal_lt _ hdropbits
  have hcur128 : bw.current < 128 := by
    have hp : (2 : Nat) ^ bw.bits_filled ≤ 2 ^ 7 :=
      Nat.pow_le_pow_right (by omega) (by omega)
    have : (2 : Nat) ^ 7 = 128 := by norm_num
    omega
  have hnewbits : ∀ x ∈ L ++ [b], x ≤ 1 := by
    intro x hx
    rcases List.mem_append.1 hx with hx | hx
    · exact h.hbits x hx
    · simp at hx; omega
  have hdropapp : (L ++ [b]).drop (8 * bw.bytes.length)
      = L.drop (8 * bw.bytes.length) ++ [b] := drop_append_le L [b] _ hWle
  have hLgetD : ∀ i, i < L.length → (L ++ [b]).getD i 0 = L.getD i 0 :=
    fun i hi => getD_append_left hi
  rw [bw_put_bit_eq bw b hb hcur128]
  by_cases h8 : bw.bits_filled + 1 = 8
  · rw [if_pos h8]
    have hlen7 : 8 * bw.bytes.length + 7 = L.length := by have := h.hlen; omega
    refine ⟨hnewbits, ?_, ?_, ?_, ?_, ?_⟩
    · simp only [List.length_append, List.length_cons, List.length_nil]
      omega
    · simp only [List.length_append, List.length_cons, List.length_nil]
      have := h.hfill; omega
    · show (0 : Nat) = bitsVal ((L ++ [b]).drop (8 * ((bw.bytes ++ [2 * bw.current + b]).length)))
      rw [List.drop_of_length_le]
      · rfl
      · simp only [List.length_append, List.length_cons, List.length_nil]
        omega
    · intro i hi
      simp only [List.length_append, List.length_cons, List.length_nil] at hi
      by_cases hiW : i < 8 * bw.bytes.length
      · unfold bitAt
        rw [getD_append_left (by omega : i / 8 < bw.bytes.length)]
        have := h.hbit i hiW
        unfold bitAt at this
        rw [this, hLgetD i (by omega)]
      · have hdiv : i / 8 = bw.bytes.length := by omega
        have hmod : i % 8 = i - 8 * bw.bytes.length := by omega
        unfold bitAt
        rw [hdiv, getD_append_right (le_refl _)]
        simp only [Nat.sub_self, List.getD_cons_zero]
        have hA : 2 * bw.current + b = bitsVal ((L ++ [b]).drop (8 * bw.bytes.length)) := by
          rw [hdropapp, bitsVal_append_one, h.hcur]
        have hAlen : ((L ++ [b]).drop (8 * bw.bytes.length)).length = 8 := by
          rw [hdropapp]
          simp only [List.length_append, List.length_cons, List.length_nil, hdroplen]
          omega
        have hAbits : ∀ x ∈ (L ++ [b]).drop (8 * bw.bytes.length), x ≤ 1 :=
          fun x hx => hnewbits x (List.drop_subset _ _ hx)
        have hext := bitsVal_extract _ (i - 8 * bw.bytes.length) hAbits
          (by rw [hAlen]; omega)
        rw [hAlen] at hext
        rw [hA]
        have hsh : 7 - i % 8 = 8 - 1 - (i - 8 * bw.bytes.length) := by omega
        rw [hsh, hext]
        rw [getD_drop]
        congr 1
        omega
    · intro v hv
      rcases List.mem_append.1 hv with hv | hv
      · exact h.hbytes v hv
      · simp at hv
        omega
  · rw [if_neg h8]
    refine ⟨hnewbits, ?_, ?_, ?_, ?_, ?_⟩
    · simp only [List.length_append, List.length_cons, List.length_nil]
      have := h.hlen; omega
    · simp only [List.length_append, List.length_cons, List.length_nil]
      have := h.hfill; omega
    · show 2 * bw.current + b = bitsVal ((L ++ [b]).drop (8 * bw.bytes.length))
      rw [hdropapp, bitsVal_append_one, h.hcur]
    · intro i hi
      have hi' : i < 8 * bw.bytes.length := hi
      have := h.hbit i hi'
      unfold bitAt at this ⊢
      rw [this, hLgetD i (by omega)]
    · exact h.hbytes

theorem Represents.put_list {l : List Nat} :
    ∀ {L : List Nat} {bw : BitWriter}, Represents L bw → (∀ b ∈ l, b ≤ 1) →
      Represents (L ++ l) (bw_put_bit_list bw l) := by
  induction l with
  | nil => intro L bw h _; simpa [bw_put_bit_list] using h
  | cons b t ih =>
    intro L bw h hl
    have hb : b ≤ 1 := hl b (by simp)
    have ht : ∀ x ∈ t, x ≤ 1 := fun x hx => hl x (by simp [hx])
    have h1 := h.put_bit hb
    have h2 := ih h1 ht
    have : L ++ [b] ++ t = L ++ b :: t := by simp
    rw [this] at h2
    exact h2

theorem putBitsList_cons (v n : Nat) :
    putBitsList v (n + 1) = ((v >>> n) &&& 1) :: putBitsList v n := by
  unfold putBitsList
  rw [List.range_succ_eq_map]
  rw [List.map_cons, List.map_map]
  have h1 : v >>> (n + 1 - 1 - 0) &&& 1 = v >>> n &&& 1 := by norm_num
  rw [h1]
  congr 1
  apply List.map_congr_left
  intro i _
  simp only [Function.comp_apply, Nat.succ_eq_add_one]
  have h2 : n + 1 - 1 - (i + 1) = n - 1 - i := by omega
  rw [h2]

theorem putBitsList_length (v n : Nat) : (putBitsList v n).length = n := by
  simp [putBitsList]

theorem putBitsList_le_one (v n : Nat) : ∀ b ∈ putBitsList v n, b ≤ 1 := by
  intro b hb
  simp only [putBitsList, List.mem_map, List.mem_range] at hb
  obtain ⟨i, _, rfl⟩ := hb
  rw [Nat.and_one_is_mod]
  omega

theorem bitsVal_putBitsList (v n : Nat) : bitsVal (putBitsList v n) = v % 2 ^ n := by
  induction n with
  | zero => simp [putBitsList, bitsVal, Nat.mod_one]
  | succ k ih =>
    rw [putBitsList_cons, bitsVal_cons, putBitsList_length, ih]
    rw [Nat.shiftRight_eq_div_pow, Nat.and_one_is_mod]
    rw [Nat.pow_succ, Nat.mod_mul]
    ring

theorem bw_put_bits_eq_list (v : Nat) :
    ∀ (n : Nat) (bw : BitWriter), bw_put_bits bw v n = bw_put_bit_list bw (putBitsList v n) := by
  intro n
  induction n with
  | zero => intro bw; simp [bw_put_bits, putBitsList, bw_put_bit_list]
  | succ k ih =>
    intro bw
    show bw_put_bits (bw_put_bit bw ((v >>> k) &&& 1)) v k = _
    rw [ih, putBitsList_cons]
    rfl

theorem bw_put_bit_list_append (bw : BitWriter) (a b : List Nat) :
    bw_put_bit_list (bw_put_bit_list bw a) b = bw_put_bit_list bw (a ++ b) := by
  simp [bw_put_bit_list, List.foldl_append]

theorem bw_put_bit_filled (bw : BitWriter) (b : Nat) :
    (bw_put_bit bw b).bits_filled = if bw.bits_filled + 1 = 8 then 0 else bw.bits_filled + 1 := by
  unfold bw_put_bit
  split <;> rfl

theorem bw_put_bit_zero (bw : BitWriter) :
    bw_put_bit bw 0
      = if bw.bits_filled + 1 = 8 then ⟨bw.bytes ++ [(bw.current <<< 1) % 256], 0, 0⟩
        else ⟨bw.bytes, (bw.current <<< 1) % 256, bw.bits_filled + 1⟩ := by
  unfold bw_put_bit
  norm_num

theorem trailing_go_spec : ∀ (k : Nat) (bw : BitWriter), bw.bits_filled < 8 →
    (bw.bits_filled = 0 ∨ 8 ≤ bw.bits_filled + k) →
    bw_put_rbsp_trailing_go k bw
      = bw_put_bit_list bw (List.replicate ((8 - bw.bits_filled) % 8) 0) := by
  intro k
  induction k with
  | zero =>
    intro bw h8 hk
    have hf : bw.bits_filled = 0 := by omega
    rw [hf]
    rfl
  | succ n ih =>
    intro bw h8 hk
    by_cases hf : bw.bits_filled = 0
    · show (if bw.bits_filled = 0 then bw else _) = _
      rw [if_pos hf, hf]
      rfl
    · show (if bw.bits_filled = 0 then bw else bw_put_rbsp_trailing_go n (bw_put_bit bw 0)) = _
      rw [if_neg hf]
      have hc : (8 - bw.bits_filled) % 8 = 8 - bw.bits_filled := by omega
      rw [hc]
      have hrep : 8 - bw.bits_filled = (8 - bw.bits_filled - 1) + 1 := by omega
      rw [hrep, List.replicate_succ]
      show _ = bw_put_bit_list (bw_put_bit bw 0) (List.replicate (8 - bw.bits_filled - 1) 0)
      have hfill := bw_put_bit_filled bw 0
      by_cases h7 : bw.bits_filled + 1 = 8
      · rw [if_pos h7] at hfill
        rw [ih (bw_put_bit bw 0) (by omega) (Or.inl hfill)]
        rw [hfill]
        have h0 : 8 - bw.bits_filled - 1 = 0 := by omega
        rw [h0]
      · rw [if_neg h7] at hfill
        rw [ih (bw_put_bit bw 0) (by omega) (Or.inr (by omega))]
        rw [hfill]
        have : (8 - (bw.bits_filled + 1)) % 8 = 8 - bw.bits_filled - 1 := by omega
        rw [this]

theorem flush_go_spec : ∀ (k : Nat) (bw : BitWriter), 0 < bw.bits_filled → bw.bits_filled < 8 →
    8 ≤ bw.bits_filled + k →
    bw_flush_go k bw = bw_put_bit_list bw (List.replicate (8 - bw.bits_filled) 0) := by
  intro k
  induction k with
  | zero => intro bw h0 h8 hk; omega
  | succ n ih =>
    intro bw h0 h8 hk
    show (if bw.bits_filled + 1 = 8
        then BitWriter.mk (bw.bytes ++ [(bw.current <<< 1) % 256]) 0 0
        else bw_flush_go n ⟨bw.bytes, (bw.current <<< 1) % 256, bw.bits_filled + 1⟩) = _
    have hz := bw_put_bit_zero bw
    by_cases h7 : bw.bits_filled + 1 = 8
    · rw [if_pos h7]
      have : 8 - bw.bits_filled = 1 := by omega
      rw [this, List.replicate_succ, List.replicate_zero]
      show _ = bw_put_bit_list (bw_put_bit bw 0) []
      rw [hz, if_pos h7]
      rfl
    · rw [if_neg h7]
      have hrec := ih ⟨bw.bytes, (bw.current <<< 1) % 256, bw.bits_filled + 1⟩
        (by simp) (by simp; omega) (by simp; omega)
      rw [hrec]
      have : 8 - bw.bits_filled = (8 - bw.bits_filled - 1) + 1 := by omega
      rw [this, List.replicate_succ]
      show _ = bw_put_bit_list (bw_put_bit bw 0) (List.replicate (8 - bw.bits_filled - 1) 0)
      rw [hz, if_neg h7]
      have he : (8 : Nat) - (bw.bits_filled + 1) = 8 - bw.bits_filled - 1 := by omega
      simp only [he]

theorem Represents.trailing {L : List Nat} {bw : BitWriter} (h : Represents L bw) :
    Represents (L ++ [1] ++ List.replicate ((8 - (L.length + 1) % 8) % 8) 0)
      (bw_put_rbsp_trailing_bits bw) := by
  have h1 := h.put_bit (by omega : (1 : Nat) ≤ 1)
  have hf : (bw_put_bit bw 1).bits_filled = (L.length + 1) % 8 := by
    have := h1.hfill
    simpa using this
  unfold bw_put_rbsp_trailing_bits
  rw [trailing_go_spec 8 _ (by omega) (Or.inr (by omega))]
  rw [hf]
  exact h1.put_list (by intro b hb; simp at hb; omega)

theorem Represents.flush {L : List Nat} {bw : BitWriter} (h : Represents L bw) :
    Represents (L ++ List.replicate ((8 - L.length % 8) % 8) 0) (bw_flush_zero_align bw) := by
  unfold bw_flush_zero_align
  by_cases hf : 0 < bw.bits_filled
  · rw [if_pos hf]
    have hlt : bw.bits_filled < 8 := by have := h.hfill; omega
    rw [flush_go_spec 8 bw hf hlt (by omega)]
    have hc : 8 - bw.bits_filled = (8 - L.length % 8) % 8 := by have := h.hfill; omega
    rw [hc]
    exact h.put_list (by intro b hb; simp at hb; omega)
  · rw [if_neg hf]
    have h0 : L.length % 8 = 0 := by have := h.hfill; omega
    rw [h0]
    simpa using h

theorem le_one_append {A B : List Nat} (ha : ∀ b ∈ A, b ≤ 1) (hb : ∀ b ∈ B, b ≤ 1) :
    ∀ b ∈ A ++ B, b ≤ 1 := by
  intro b hb'
  rcases List.mem_append.1 hb' with hx | hx
  · exact ha b hx
  · exact hb b hx

/-- The exact bit sequence `build_pic_timing_sei_nal` feeds to its writer. -/
def picTimingBits (drop_frame : Bool) (frame seconds minutes hours : Nat)
    (include_time_offset : Bool) : List Nat :=
  putBitsList 0 4 ++ putBitsList 1 1 ++ putBitsList 0 2 ++ putBitsList 0 1 ++ putBitsList 0 5 ++
    putBitsList 1 1 ++ putBitsList 0 1 ++ putBitsList (if drop_frame then 1 else 0) 1 ++
    putBitsList (frame &&& 255) 8 ++ putBitsList (seconds &&& 63) 6 ++
    putBitsList (minutes &&& 63) 6 ++ putBitsList (hours &&& 31) 5 ++
    (if include_time_offset then putBitsList 0 24 else [])

theorem picTimingBits_le_one (d : Bool) (f s m h : Nat) (ito : Bool) :
    ∀ b ∈ picTimingBits d f s m h ito, b ≤ 1 := by
  unfold picTimingBits
  repeat' apply le_one_append
  all_goals try exact putBitsList_le_one _ _
  intro b hb
  split at hb
  · exact putBitsList_le_one _ _ b hb
  · simp at hb

theorem picTimingBits_length (d : Bool) (f s m h : Nat) (ito : Bool) :
    (picTimingBits d f s m h ito).length = if ito then 65 else 41 := by
  cases ito <;> simp [picTimingBits, putBitsList_length]

theorem build_pic_timing_sei_nal_eq (d : Bool) (f s m h : Nat) (ito : Bool) :
    build_pic_timing_sei_nal d f s m h ito =
      (fun payload => epb_safe_append
          (payload.foldl epb_safe_append
            (sei_size_append (epb_safe_append [0, 0, 0, 1, 6] 1) payload.length)) 128)
        (bw_flush_zero_align
          (bw_put_bit_list ⟨[], 0, 0⟩ (picTimingBits d f s m h ito))).bytes := by
  cases ito <;>
    simp only [build_pic_timing_sei_nal, picTimingBits, bw_put_bits_eq_list,
      bw_put_bit_list_append, List.append_assoc, List.append_nil, if_true, if_false,
      Bool.false_eq_true, ite_true, ite_false]

theorem pic_timing_payload_repr (d : Bool) (f s m h : Nat) (ito : Bool) :
    Represents (picTimingBits d f s m h ito
        ++ List.replicate ((8 - (picTimingBits d f s m h ito).length % 8) % 8) 0)
      (bw_flush_zero_align (bw_put_bit_list ⟨[], 0, 0⟩ (picTimingBits d f s m h ito))) := by
  have h1 := Represents_nil.put_list (picTimingBits_le_one d f s m h ito)
  rw [List.nil_append] at h1
  exact h1.flush

theorem pic_timing_payload_len (d : Bool) (f s m h : Nat) (ito : Bool) :
    (bw_flush_zero_align (bw_put_bit_list ⟨[], 0, 0⟩ (picTimingBits d f s m h ito))).bytes.length
      = if ito then 9 else 6 := by
  have hr := pic_timing_payload_repr d f s m h ito
  have hlen := hr.hlen
  have hL : (picTimingBits d f s m h ito
      ++ List.replicate ((8 - (picTimingBits d f s m h ito).length % 8) % 8) 0).length
      = if ito then 72 else 48 := by
    rw [List.length_append, List.length_replicate, picTimingBits_length]
    cases ito <;> norm_num
  rw [hL] at hlen
  have hfill := hr.hfill
  rw [hL] at hfill
  cases ito <;> simp_all <;> omega

theorem epb_safe_append_big (arr : List Nat) (b : Nat) (hb : ¬ b ≤ 3) :
    epb_safe_append arr b = arr ++ [b] := by
  unfold epb_safe_append
  rw [if_neg (by intro hx; exact hb hx.2.2.2)]

/-- C9: the Picture Timing SEI NAL always begins with the bytes
`00 00 00 01 06 01`, its payload-size byte is exactly 6 when the time offset
is omitted and exactly 9 when the 24-bit time offset is included (the payload
is byte-aligned to that fixed size before emulation prevention), and the NAL
ends with a trailing `0x80` byte. -/
theorem c9_sei_nal_framing (drop_frame : Bool) (frame seconds minutes hours : Nat)
    (include_time_offset : Bool) :
    (build_pic_timing_sei_nal drop_frame frame seconds minutes hours include_time_offset).take 7
        = [0, 0, 0, 1, 6, 1, if include_time_offset then 9 else 6] ∧
      (build_pic_timing_sei_nal drop_frame frame seconds minutes hours
        include_time_offset).getLast? = some 128 := by
  rw [build_pic_timing_sei_nal_eq]
  have hplen := pic_timing_payload_len drop_frame frame seconds minutes hours include_time_offset
  simp only []
  rw [hplen]
  have hpre : epb_safe_append [0, 0, 0, 1, 6] 1 = [0, 0, 0, 1, 6, 1] := by decide
  rw [hpre]
  have hsz : sei_size_append [0, 0, 0, 1, 6, 1] (if include_time_offset then 9 else 6)
      = [0, 0, 0, 1, 6, 1, if include_time_offset then 9 else 6] := by
    cases include_time_offset <;> decide
  rw [hsz]
  rw [foldl_epb_eq_emitFrom]
  have htz : tz2 [0, 0, 0, 1, 6, 1, if include_time_offset then 9 else 6] = 0 := by
    cases include_time_offset <;> decide
  rw [htz]
  rw [epb_safe_append_big _ 128 (by omega)]
  constructor
  · rw [List.append_assoc]
    exact List.take_left' (by simp)
  · exact List.getLast?_concat _

/-! ## Bit reader (`BitReader`, `main.c` 888-926) -/

/-- `BitReader` from `main.c`: the byte buffer, the bit position from the
start, and the `ok` flag threaded by pointer in C. -/
structure BitReader where
  data : List Nat
  bitpos : Nat
  ok : Bool
deriving DecidableEq, Repr

/-- `br_read_bit`: past-the-end reads clear `ok` and return 0 without moving;
otherwise return the bit at `bitpos` (`(data[pos>>3] >> (7-(pos&7))) & 1`). -/
def br_read_bit (br : BitReader) : Nat × BitReader :=
  if br.data.length * 8 ≤ br.bitpos then (0, { br with ok := false })
  else (bitAt br.data br.bitpos, { br with bitpos := br.bitpos + 1 })

/-- Loop of `br_read_bits`: accumulate bits MSB-first, returning 0 as soon as
the `ok` flag is found cleared after a read. -/
def br_read_bits_go (val : Nat) : Nat → BitReader → Nat × BitReader
  | 0, br => (val, br)
  | n + 1, br =>
    let p := br_read_bit br
    if p.2.ok then br_read_bits_go ((val <<< 1) ||| p.1) n p.2 else (0, p.2)

/-- `br_read_bits` from `main.c`. -/
def br_read_bits (br : BitReader) (n : Nat) : Nat × BitReader := br_read_bits_go 0 n br

/-- Loop of `br_read_ue`: count leading zero bits (failing past 31), then read
the suffix.  The fuel argument (31 - zeros + 1 at every reachable state) keeps
the recursion structural; its exhaustion branch is unreachable. -/
def br_read_ue_go : Nat → Nat → BitReader → Nat × BitReader
  | zeros, fuel, br =>
    let p := br_read_bit br
    if p.1 = 0 then
      if p.2.ok = false then (0, p.2)
      else if 31 < zeros + 1 then (0, { p.2 with ok := false })
      else
        match fuel with
        | 0 => (0, p.2)
        | fuel' + 1 => br_read_ue_go (zeros + 1) fuel' p.2
    else
      if zeros = 0 then (0, p.2)
      else
        let q := br_read_bits p.2 zeros
        ((1 <<< zeros) - 1 + q.1, q.2)

/-- `br_read_ue` from `main.c`: unsigned exp-Golomb. -/
def br_read_ue (br : BitReader) : Nat × BitReader := br_read_ue_go 0 32 br

/-! ## `SpsVuiInfo` (`main.c` 36-47) -/

structure SpsVuiInfo where
  vui_present : Bool
  pic_struct_present_flag : Bool
  cpb_dpb_delays_present_flag : Bool
  cpb_removal_delay_length : Nat
  dpb_output_delay_length : Nat
  time_offset_length : Nat
  timing_info_present_flag : Bool
  num_units_in_tick : Nat
  time_scale : Nat
  fixed_frame_rate_flag : Bool
deriving DecidableEq, Repr

/-- `build_pic_timing_sei_nal_from_sps` from `main.c` 1250-1255: the time
offset is included exactly when HRD parameters are present and
`time_offset_length > 0`. -/
def build_pic_timing_sei_nal_from_sps (info : SpsVuiInfo) (drop_frame : Bool)
    (frame seconds minutes hours : Nat) : List Nat :=
  let include_time_offset :=
    info.cpb_dpb_delays_present_flag && decide (0 < info.time_offset_length)
  build_pic_timing_sei_nal drop_frame frame seconds minutes hours include_time_offset

/-- Modelled from the spec (§4.F): reference Picture Timing SEI builder in
which the `time_offset` field occupies exactly `to_bits` bits with value 0
(`to_bits = 0` meaning the field is absent); used to state what claim C6's
"occupies exactly `time_offset_length` bits" means. -/
def pic_timing_sei_nal_spec_ref (to_bits : Nat) (drop_frame : Bool)
    (frame seconds minutes hours : Nat) : List Nat :=
  let bw : BitWriter := ⟨[], 0, 0⟩
  let bw := bw_put_bits bw 0 4
  let bw := bw_put_bits bw 1 1
  let bw := bw_put_bits bw 0 2
  let bw := bw_put_bits bw 0 1
  let bw := bw_put_bits bw 0 5
  let bw := bw_put_bits bw 1 1
  let bw := bw_put_bits bw 0 1
  let bw := bw_put_bits bw (if drop_frame then 1 else 0) 1
  let bw := bw_put_bits bw (frame &&& 255) 8
  let bw := bw_put_bits bw (seconds &&& 63) 6
  let bw := bw_put_bits bw (minutes &&& 63) 6
  let bw := bw_put_bits bw (hours &&& 31) 5
  let bw := bw_put_bits bw 0 to_bits
  let bw := bw_flush_zero_align bw
  let payload := bw.bytes
  let sei : List Nat := [0, 0, 0, 1, 6]
  let sei := epb_safe_append sei 1
  let sei := sei_size_append sei payload.length
  let sei := payload.foldl epb_safe_append sei
  epb_safe_append sei 128

/-! ## Picture Timing SEI decoder (modelled from the spec) -/

/-- Decoded Picture Timing message fields (flags kept as the bit values
read). -/
structure PicTimingInfo where
  payload_type : Nat
  pic_struct : Nat
  ct_type : Nat
  full_timestamp_flag : Nat
  discontinuity_flag : Nat
  cnt_dropped_flag : Nat
  n_frames : Nat
  seconds_value : Nat
  minutes_value : Nat
  hours_value : Nat
deriving DecidableEq, Repr

/-- Modelled from the spec (§4.F framing): an ff-coded value — `0xFF` bytes
accumulate 255 each, the first non-`0xFF` byte terminates. -/
def read_ff_coded : List Nat → Nat → Option (Nat × List Nat)
  | [], _ => none
  | b :: rest, acc => if b = 255 then read_ff_coded rest (acc + 255) else some (acc + b, rest)

/-- Modelled from the spec: the repository contains no Picture Timing SEI
decoder, so this parser follows §4.F — Annex B start code, NAL header of type
6, ff-coded payload type and size, EPB removal, then the payload bit fields in
the table's order (up to `hours_value`). -/
def parse_pic_timing_sei (nal : List Nat) : Option PicTimingInfo :=
  match find_startcode nal 0 with
  | none => none
  | some sc =>
    let sl := startcode_len_at nal sc
    let ns := sc + sl
    if ns < nal.length ∧ nal.getD ns 0 &&& 31 = 6 then
      let rbsp := ebsp_to_rbsp (nal.drop (ns + 1))
      match read_ff_coded rbsp 0 with
      | none => none
      | some (ptype, rest1) =>
        match read_ff_coded rest1 0 with
        | none => none
        | some (_psize, rest2) =>
          let br : BitReader := ⟨rest2, 0, true⟩
          let r1 := br_read_bits br 4
          let r2 := br_read_bits r1.2 1
          if r2.1 = 1 then
            let r3 := br_read_bits r2.2 2
            let r4 := br_read_bits r3.2 1
            let r5 := br_read_bits r4.2 5
            let r6 := br_read_bits r5.2 1
            let r7 := br_read_bits r6.2 1
            let r8 := br_read_bits r7.2 1
            let r9 := br_read_bits r8.2 8
            let r10 := br_read_bits r9.2 6
            let r11 := br_read_bits r10.2 6
            let r12 := br_read_bits r11.2 5
            if r12.2.ok then
              some ⟨ptype, r1.1, r3.1, r6.1, r7.1, r8.1, r9.1, r10.1, r11.1, r12.1⟩
            else none
          else none
    else none

/-! ## Reader run lemmas -/

theorem bitAt_le_one (data : List Nat) (i : Nat) : bitAt data i ≤ 1 := by
  unfold bitAt
  rw [Nat.and_one_is_mod]
  omega

theorem br_read_bit_eq {data : List Nat} {pos : Nat} {ok : Bool} (h : pos < data.length * 8) :
    br_read_bit ⟨data, pos, ok⟩ = (bitAt data pos, ⟨data, pos + 1, ok⟩) := by
  unfold br_read_bit
  rw [if_neg (by simp only []; omega)]

theorem br_read_bits_go_run (n : Nat) :
    ∀ (val : Nat) (data : List Nat) (pos : Nat), pos + n ≤ data.length * 8 →
      br_read_bits_go val n ⟨data, pos, true⟩
        = (val * 2 ^ n + bitsVal ((List.range n).map (fun i => bitAt data (pos + i))),
           ⟨data, pos + n, true⟩) := by
  induction n with
  | zero =>
    intro val data pos _
    simp [br_read_bits_go, bitsVal]
  | succ k ih =>
    intro val data pos hle
    show (let p := br_read_bit ⟨data, pos, true⟩
      if p.2.ok then br_read_bits_go ((val <<< 1) ||| p.1) k p.2 else (0, p.2)) = _
    rw [br_read_bit_eq (by omega)]
    simp only [reduceIte]
    rw [or_bit_eq_add _ _ (bitAt_le_one data pos)]
    rw [ih (2 * val + bitAt data pos) data (pos + 1) (by omega)]
    have hmap : (List.range (k + 1)).map (fun i => bitAt data (pos + i))
        = bitAt data pos :: (List.range k).map (fun i => bitAt data (pos + 1 + i)) := by
      apply List.ext_getElem
      · simp
      · intro i h1 h2
        simp only [List.getElem_map, List.getElem_range]
        cases i with
        | zero => simp
        | succ j =>
          simp only [List.getElem_cons_succ, List.getElem_map, List.getElem_range]
          congr 1
          omega
    rw [hmap, bitsVal_cons]
    have hlen : ((List.range k).map (fun i => bitAt data (pos + 1 + i))).length = k := by simp
    rw [hlen]
    have hp : pos + 1 + k = pos + (k + 1) := by omega
    rw [hp, Prod.mk.injEq]
    refine ⟨?_, rfl⟩
    rw [Nat.pow_succ]
    ring

theorem br_read_bits_eq (data : List Nat) (pos n : Nat) (h : pos + n ≤ data.length * 8) :
    br_read_bits ⟨data, pos, true⟩ n
      = (bitsVal ((List.range n).map (fun i => bitAt data (pos + i))),
         ⟨data, pos + n, true⟩) := by
  unfold br_read_bits
  rw [br_read_bits_go_run n 0 data pos h]
  simp

theorem map_range_bits_eq {data : List Nat} {pos n : Nat} {l : List Nat} (hlen : l.length = n)
    (h : ∀ i, i < n → bitAt data (pos + i) = l.getD i 0) :
    (List.range n).map (fun i => bitAt data (pos + i)) = l := by
  apply List.ext_getElem
  · simp [hlen]
  · intro i h1 h2
    simp only [List.getElem_map, List.getElem_range]
    have := h i (by simpa using h1)
    rw [this]
    rw [List.getD_eq_getElem?_getD, List.getElem?_eq_getElem h2]
    rfl

theorem bitAt_append_left {A B : List Nat} {i : Nat} (h : i < 8 * A.length) :
    bitAt (A ++ B) i = bitAt A i := by
  unfold bitAt
  rw [getD_append_left (by omega)]

/-! ## C2 support: decoding the SEI NAL built by `build_pic_timing_sei_nal` -/

theorem ebsp_go_single_big {st b : Nat} (hb : ¬ b ≤ 3) : ebsp_to_rbsp_go st [b] = [b] := by
  rw [ebsp_go_keep (by omega : ¬ (2 ≤ st ∧ b = 3))]
  rw [if_neg (by omega : ¬ b = 0)]
  rfl

/-- Decoding inverts emission even with extra bytes appended: the decoder
resumes on the suffix in some zero-run state. -/
theorem ebsp_go_emitFrom_append (xs : List Nat) :
    ∀ (z : Nat) (suffix : List Nat), ∃ st : Nat,
      ebsp_to_rbsp_go z (emitFrom z xs ++ suffix) = xs ++ ebsp_to_rbsp_go st suffix := by
  induction xs with
  | nil => intro z suffix; exact ⟨z, rfl⟩
  | cons b rest ih =>
    intro z suffix
    by_cases hc : 2 ≤ z ∧ b ≤ 3
    · have hlhs : emitFrom z (b :: rest)
          = 3 :: b :: emitFrom (if b = 0 then 1 else 0) rest := by
        simp only [emitFrom]; rw [if_pos hc]
      rw [hlhs, List.cons_append, List.cons_append, ebsp_go_drop hc.1 rfl,
        ebsp_go_keep (by omega : ¬ (2 ≤ 0 ∧ b = 3))]
      obtain ⟨st, hst⟩ := ih (if b = 0 then 1 else 0) suffix
      by_cases hb : b = 0
      · simp only [if_pos hb] at hst ⊢
        rw [hst]
        exact ⟨st, rfl⟩
      · simp only [if_neg hb] at hst ⊢
        rw [hst]
        exact ⟨st, rfl⟩
    · have hno : ¬ (2 ≤ z ∧ b = 3) := by
        intro hp; exact hc ⟨hp.1, by omega⟩
      have hlhs : emitFrom z (b :: rest)
          = b :: emitFrom (if b = 0 then min (z + 1) 2 else 0) rest := by
        simp only [emitFrom]; rw [if_neg hc]
      rw [hlhs, List.cons_append, ebsp_go_keep hno]
      obtain ⟨st, hst⟩ := ih (if b = 0 then min (z + 1) 2 else 0) suffix
      by_cases hb : b = 0
      · simp only [if_pos hb] at hst ⊢
        rw [ebsp_go_cap _ (z + 1) (min (z + 1) 2) (by omega), hst]
        exact ⟨st, rfl⟩
      · simp only [if_neg hb] at hst ⊢
        rw [hst]
        exact ⟨st, rfl⟩

theorem find_startcode_zero4 {data : List Nat} (h4 : 4 < data.length)
    (h0 : data.getD 0 0 = 0) (h1 : data.getD 1 0 = 0) (h2 : data.getD 2 0 = 0)
    (h3 : data.getD 3 0 = 1) : find_startcode data 0 = some 0 := by
  unfold find_startcode
  obtain ⟨fl, hfl⟩ : ∃ fl, data.length - 0 = fl + 1 := ⟨data.length - 1, by omega⟩
  rw [hfl]
  unfold find_startcode_go
  rw [if_pos (show 0 + 3 < data.length from by omega)]
  have hc1 : data.getD 0 0 = 0 ∧ data.getD (0 + 1) 0 = 0 := ⟨h0, h1⟩
  rw [if_pos hc1]
  rw [if_neg (show ¬ data.getD (0 + 2) 0 = 1 from by
    have h2x : data.getD (0 + 2) 0 = 0 := h2
    omega)]
  have hc2 : 0 + 4 < data.length ∧ data.getD (0 + 2) 0 = 0 ∧ data.getD (0 + 3) 0 = 1 :=
    ⟨by omega, h2, h3⟩
  rw [if_pos hc2]

theorem startcode_len_zero4 {data : List Nat} (h4 : 4 < data.length)
    (h0 : data.getD 0 0 = 0) (h1 : data.getD 1 0 = 0) (h2 : data.getD 2 0 = 0)
    (h3 : data.getD 3 0 = 1) : startcode_len_at data 0 = 4 := by
  unfold startcode_len_at
  have hc1 : 0 + 3 < data.length ∧ data.getD 0 0 = 0 ∧ data.getD (0 + 1) 0 = 0 :=
    ⟨by omega, h0, h1⟩
  rw [if_pos hc1]
  rw [if_neg (show ¬ data.getD (0 + 2) 0 = 1 from by
    have h2x : data.getD (0 + 2) 0 = 0 := h2
    omega)]
  have hc2 : 0 + 4 < data.length ∧ data.getD (0 + 2) 0 = 0 ∧ data.getD (0 + 3) 0 = 1 :=
    ⟨by omega, h2, h3⟩
  rw [if_pos hc2]

theorem getD_middle (A B C : List Nat) (pos i : Nat) (hA : A.length = pos)
    (hi : i < B.length) : (A ++ (B ++ C)).getD (pos + i) 0 = B.getD i 0 := by
  rw [getD_append_right (by omega)]
  have hidx : pos + i - A.length = i := by omega
  rw [hidx, getD_append_left hi]

theorem bitsVal_single (b : Nat) : bitsVal [b] = b := by
  simp [bitsVal]

/-- One `br_read_bits` step against a buffer whose bits agree with a reference
bit list `P` below `bound`. -/
theorem read_chunk (data P B : List Nat) (pos n bound : Nat)
    (hd : ∀ i, i < bound → bitAt data i = P.getD i 0)
    (hlen : pos + n ≤ data.length * 8) (hbound : pos + n ≤ bound)
    (hB : B.length = n) (hseg : ∀ i, i < n → P.getD (pos + i) 0 = B.getD i 0) :
    br_read_bits ⟨data, pos, true⟩ n = (bitsVal B, ⟨data, pos + n, true⟩) := by
  rw [br_read_bits_eq data pos n hlen]
  rw [map_range_bits_eq hB (fun i hi => by rw [hd (pos + i) (by omega), hseg i hi])]

/-- The bit list of `picTimingBits` with its constant segments evaluated and
the appends right-associated. -/
def picTimingBitsX (d : Bool) (f s m h : Nat) (ito : Bool) : List Nat :=
  [0, 0, 0, 0, 1, 0, 0, 0, 0, 0, 0, 0, 0, 1, 0, if d then 1 else 0]
    ++ (putBitsList (f &&& 255) 8
    ++ (putBitsList (s &&& 63) 6
    ++ (putBitsList (m &&& 63) 6
    ++ (putBitsList (h &&& 31) 5
    ++ (if ito then putBitsList 0 24 else [])))))

theorem picTimingBits_eq_X (d : Bool) (f s m h : Nat) (ito : Bool) :
    picTimingBits d f s m h ito = picTimingBitsX d f s m h ito := by
  have e1 : putBitsList 0 4 = [0, 0, 0, 0] := rfl
  have e2 : putBitsList 1 1 = [1] := rfl
  have e3 : putBitsList 0 2 = [0, 0] := rfl
  have e4 : putBitsList 0 1 = [0] := rfl
  have e5 : putBitsList 0 5 = [0, 0, 0, 0, 0] := rfl
  have e6 : putBitsList (if d then 1 else 0) 1 = [if d then 1 else 0] := by
    cases d <;> rfl
  simp [picTimingBits, picTimingBitsX, e1, e2, e3, e4, e5, e6, List.append_assoc]

theorem build_pic_timing_sei_nal_explicit (d : Bool) (f s m h : Nat) (ito : Bool) :
    build_pic_timing_sei_nal d f s m h ito
      = [0, 0, 0, 1, 6, 1, if ito then 9 else 6]
          ++ emitFrom 0 (bw_flush_zero_align
              (bw_put_bit_list ⟨[], 0, 0⟩ (picTimingBits d f s m h ito))).bytes
          ++ [128] := by
  rw [build_pic_timing_sei_nal_eq]
  have hplen := pic_timing_payload_len d f s m h ito
  simp only []
  rw [hplen]
  have hpre : epb_safe_append [0, 0, 0, 1, 6] 1 = [0, 0, 0, 1, 6, 1] := by decide
  rw [hpre]
  have hsz : sei_size_append [0, 0, 0, 1, 6, 1] (if ito then 9 else 6)
      = [0, 0, 0, 1, 6, 1, if ito then 9 else 6] := by
    cases ito <;> decide
  rw [hsz, foldl_epb_eq_emitFrom]
  have htz : tz2 [0, 0, 0, 1, 6, 1, if ito then 9 else 6] = 0 := by
    cases ito <;> decide
  rw [htz, epb_safe_append_big _ 128 (by omega)]

/-- Core decode computation: parsing an Annex B buffer of the exact shape the
SEI builder emits recovers the encoded fields. -/
theorem parse_pic_timing_core (d : Bool) (f s m h : Nat) (ito : Bool) (Q : List Nat) (sz : Nat)
    (hf : f ≤ 255) (hs : s ≤ 59) (hm : m ≤ 59) (hh : h ≤ 23)
    (hsz : sz = 9 ∨ sz = 6) (hQlen : 6 ≤ Q.length)
    (hQbit : ∀ i, i < 41 → bitAt Q i = (picTimingBitsX d f s m h ito).getD i 0) :
    parse_pic_timing_sei ([0, 0, 0, 1, 6, 1, sz] ++ emitFrom 0 Q ++ [128])
      = some ⟨1, 0, 0, 1, 0, if d then 1 else 0, f, s, m, h⟩ := by
  have hNlen : 8 ≤ ([0, 0, 0, 1, 6, 1, sz] ++ emitFrom 0 Q ++ [128]).length := by
    simp only [List.length_append, List.length_cons, List.length_nil]
    omega
  have hfs : find_startcode ([0, 0, 0, 1, 6, 1, sz] ++ emitFrom 0 Q ++ [128]) 0 = some 0 :=
    find_startcode_zero4 (by omega) rfl rfl rfl rfl
  have hscl : startcode_len_at ([0, 0, 0, 1, 6, 1, sz] ++ emitFrom 0 Q ++ [128]) 0 = 4 :=
    startcode_len_zero4 (by omega) rfl rfl rfl rfl
  have hcond1 : 0 + 4 < ([0, 0, 0, 1, 6, 1, sz] ++ emitFrom 0 Q ++ [128]).length := by omega
  have hg4 : ([0, 0, 0, 1, 6, 1, sz] ++ emitFrom 0 Q ++ [128]).getD (0 + 4) 0 = 6 := rfl
  have hcond2 : ([0, 0, 0, 1, 6, 1, sz] ++ emitFrom 0 Q ++ [128]).getD (0 + 4) 0 &&& 31 = 6 := by
    rw [hg4]
    decide
  have hdrop : ([0, 0, 0, 1, 6, 1, sz] ++ emitFrom 0 Q ++ [128]).drop (0 + 4 + 1)
      = ([1, sz] ++ emitFrom 0 Q) ++ [128] := by
    rw [drop_append_le _ _ (0 + 4 + 1)
      (by simp only [List.length_append, List.length_cons, List.length_nil]; omega)]
    rw [drop_append_le _ _ (0 + 4 + 1)
      (by simp only [List.length_cons, List.length_nil]; omega)]
    rfl
  have hrbsp : ebsp_to_rbsp (([1, sz] ++ emitFrom 0 Q) ++ [128]) = 1 :: sz :: (Q ++ [128]) := by
    show ebsp_to_rbsp_go 0 (1 :: sz :: (emitFrom 0 Q ++ [128])) = _
    rw [ebsp_go_keep (by omega : ¬ (2 ≤ 0 ∧ (1 : Nat) = 3))]
    rw [if_neg (by omega : ¬ (1 : Nat) = 0)]
    rw [ebsp_go_keep (by omega : ¬ (2 ≤ 0 ∧ sz = 3))]
    rw [if_neg (show ¬ sz = 0 from by omega)]
    obtain ⟨st, hst⟩ := ebsp_go_emitFrom_append Q 0 [128]
    rw [hst, ebsp_go_single_big (by omega : ¬ (128 : Nat) ≤ 3)]
  have hff1 : read_ff_coded (1 :: sz :: (Q ++ [128])) 0 = some (1, sz :: (Q ++ [128])) := by
    simp only [read_ff_coded]
    rw [if_neg (by omega : ¬ (1 : Nat) = 255)]
  have hff2 : read_ff_coded (sz :: (Q ++ [128])) 0 = some (sz, Q ++ [128]) := by
    simp only [read_ff_coded]
    rw [if_neg (show ¬ sz = 255 from by omega), Nat.zero_add]
  have hd : ∀ i, i < 41 → bitAt (Q ++ [128]) i = (picTimingBitsX d f s m h ito).getD i 0 := by
    intro i hi
    rw [bitAt_append_left (by omega)]
    exact hQbit i hi
  have hdl : ∀ p n : Nat, p + n ≤ 41 → p + n ≤ (Q ++ [128]).length * 8 := by
    intro p n hpn
    simp only [List.length_append, List.length_cons, List.length_nil]
    omega
  have hseg1 : ∀ i, i < 4 → (picTimingBitsX d f s m h ito).getD (0 + i) 0
      = ([0, 0, 0, 0] : List Nat).getD i 0 := by
    intro i hi
    exact getD_middle [] [0, 0, 0, 0]
      ([1, 0, 0, 0, 0, 0, 0, 0, 0, 1, 0, if d then 1 else 0]
        ++ (putBitsList (f &&& 255) 8 ++ (putBitsList (s &&& 63) 6
        ++ (putBitsList (m &&& 63) 6 ++ (putBitsList (h &&& 31) 5
        ++ (if ito then putBitsList 0 24 else []))))))
      0 i rfl (by simpa using hi)
  have hseg2 : ∀ i, i < 1 → (picTimingBitsX d f s m h ito).getD (4 + i) 0
      = ([1] : List Nat).getD i 0 := by
    intro i hi
    exact getD_middle [0, 0, 0, 0] [1]
      ([0, 0, 0, 0, 0, 0, 0, 0, 1, 0, if d then 1 else 0]
        ++ (putBitsList (f &&& 255) 8 ++ (putBitsList (s &&& 63) 6
        ++ (putBitsList (m &&& 63) 6 ++ (putBitsList (h &&& 31) 5
        ++ (if ito then putBitsList 0 24 else []))))))
      4 i rfl (by simpa using hi)
  have hseg3 : ∀ i, i < 2 → (picTimingBitsX d f s m h ito).getD (5 + i) 0
      = ([0, 0] : List Nat).getD i 0 := by
    intro i hi
    exact getD_middle [0, 0, 0, 0, 1] [0, 0]
      ([0, 0, 0, 0, 0, 0, 1, 0, if d then 1 else 0]
        ++ (putBitsList (f &&& 255) 8 ++ (putBitsList (s &&& 63) 6
        ++ (putBitsList (m &&& 63) 6 ++ (putBitsList (h &&& 31) 5
        ++ (if ito then putBitsList 0 24 else []))))))
      5 i rfl (by simpa using hi)
  have hseg4 : ∀ i, i < 1 → (picTimingBitsX d f s m h ito).getD (7 + i) 0
      = ([0] : List Nat).getD i 0 := by
    intro i hi
    exact getD_middle [0, 0, 0, 0, 1, 0, 0] [0]
      ([0, 0, 0, 0, 0, 1, 0, if d then 1 else 0]
        ++ (putBitsList (f &&& 255) 8 ++ (putBitsList (s &&& 63) 6
        ++ (putBitsList (m &&& 63) 6 ++ (putBitsList (h &&& 31) 5
        ++ (if ito then putBitsList 0 24 else []))))))
      7 i rfl (by simpa using hi)
  have hseg5 : ∀ i, i < 5 → (picTimingBitsX d f s m h ito).getD (8 + i) 0
      = ([0, 0, 0, 0, 0] : List Nat).getD i 0 := by
    intro i hi
    exact getD_middle [0, 0, 0, 0, 1, 0, 0, 0] [0, 0, 0, 0, 0]
      ([1, 0, if d then 1 else 0]
        ++ (putBitsList (f &&& 255) 8 ++ (putBitsList (s &&& 63) 6
        ++ (putBitsList (m &&& 63) 6 ++ (putBitsList (h &&& 31) 5
        ++ (if ito then putBitsList 0 24 else []))))))
      8 i rfl (by simpa using hi)
  have hseg6 : ∀ i, i < 1 → (picTimingBitsX d f s m h ito).getD (13 + i) 0
      = ([1] : List Nat).getD i 0 := by
    intro i hi
    exact getD_middle [0, 0, 0, 0, 1, 0, 0, 0, 0, 0, 0, 0, 0] [1]
      ([0, if d then 1 else 0]
        ++ (putBitsList (f &&& 255) 8 ++ (putBitsList (s &&& 63) 6
        ++ (putBitsList (m &&& 63) 6 ++ (putBitsList (h &&& 31) 5
        ++ (if ito then putBitsList 0 24 else []))))))
      13 i rfl (by simpa using hi)
  have hseg7 : ∀ i, i < 1 → (picTimingBitsX d f s m h ito).getD (14 + i) 0
      = ([0] : List Nat).getD i 0 := by
    intro i hi
    exact getD_middle [0, 0, 0, 0, 1, 0, 0, 0, 0, 0, 0, 0, 0, 1] [0]
      ([if d then 1 else 0]
        ++ (putBitsList (f &&& 255) 8 ++ (putBitsList (s &&& 63) 6
        ++ (putBitsList (m &&& 63) 6 ++ (putBitsList (h &&& 31) 5
        ++ (if ito then putBitsList 0 24 else []))))))
      14 i rfl (by simpa using hi)
  have hseg8 : ∀ i, i < 1 → (picTimingBitsX d f s m h ito).getD (15 + i) 0
      = ([if d then 1 else 0] : List Nat).getD i 0 := by
    intro i hi
    exact getD_middle [0, 0, 0, 0, 1, 0, 0, 0, 0, 0, 0, 0, 0, 1, 0] [if d then 1 else 0]
      (putBitsList (f &&& 255) 8 ++ (putBitsList (s &&& 63) 6
        ++ (putBitsList (m &&& 63) 6 ++ (putBitsList (h &&& 31) 5
        ++ (if ito then putBitsList 0 24 else [])))))
      15 i rfl (by simpa using hi)
  have hseg9 : ∀ i, i < 8 → (picTimingBitsX d f s m h ito).getD (16 + i) 0
      = (putBitsList (f &&& 255) 8).getD i 0 := by
    intro i hi
    exact getD_middle [0, 0, 0, 0, 1, 0, 0, 0, 0, 0, 0, 0, 0, 1, 0, if d then 1 else 0]
      (putBitsList (f &&& 255) 8)
      (putBitsList (s &&& 63) 6 ++ (putBitsList (m &&& 63) 6 ++ (putBitsList (h &&& 31) 5
        ++ (if ito then putBitsList 0 24 else []))))
      16 i rfl (by simpa [putBitsList_length] using hi)
  have hseg10 : ∀ i, i < 6 → (picTimingBitsX d f s m h ito).getD (24 + i) 0
      = (putBitsList (s &&& 63) 6).getD i 0 := by
    intro i hi
    exact getD_middle
      ([0, 0, 0, 0, 1, 0, 0, 0, 0, 0, 0, 0, 0, 1, 0, if d then 1 else 0]
        ++ putBitsList (f &&& 255) 8)
      (putBitsList (s &&& 63) 6)
      (putBitsList (m &&& 63) 6 ++ (putBitsList (h &&& 31) 5
        ++ (if ito then putBitsList 0 24 else [])))
      24 i (by simp [putBitsList_length]) (by simpa [putBitsList_length] using hi)
  have hseg11 : ∀ i, i < 6 → (picTimingBitsX d f s m h ito).getD (30 + i) 0
      = (putBitsList (m &&& 63) 6).getD i 0 := by
    intro i hi
    have hPx : picTimingBitsX d f s m h ito
        = ([0, 0, 0, 0, 1, 0, 0, 0, 0, 0, 0, 0, 0, 1, 0, if d then 1 else 0]
            ++ (putBitsList (f &&& 255) 8 ++ putBitsList (s &&& 63) 6))
          ++ (putBitsList (m &&& 63) 6 ++ (putBitsList (h &&& 31) 5
            ++ (if ito then putBitsList 0 24 else []))) := by
      simp [picTimingBitsX, List.append_assoc]
    rw [hPx]
    exact getD_middle _ _ _ 30 i (by simp [putBitsList_length])
      (by simpa [putBitsList_length] using hi)
  have hseg12 : ∀ i, i < 5 → (picTimingBitsX d f s m h ito).getD (36 + i) 0
      = (putBitsList (h &&& 31) 5).getD i 0 := by
    intro i hi
    have hPx : picTimingBitsX d f s m h ito
        = ([0, 0, 0, 0, 1, 0, 0, 0, 0, 0, 0, 0, 0, 1, 0, if d then 1 else 0]
            ++ (putBitsList (f &&& 255) 8 ++ (putBitsList (s &&& 63) 6
              ++ putBitsList (m &&& 63) 6)))
          ++ (putBitsList (h &&& 31) 5 ++ (if ito then putBitsList 0 24 else [])) := by
      simp [picTimingBitsX, List.append_assoc]
    rw [hPx]
    exact getD_middle _ _ _ 36 i (by simp [putBitsList_length])
      (by simpa [putBitsList_length] using hi)
  have hr1 : br_read_bits ⟨Q ++ [128], 0, true⟩ 4 = (0, ⟨Q ++ [128], 4, true⟩) :=
    read_chunk (Q ++ [128]) (picTimingBitsX d f s m h ito) [0, 0, 0, 0] 0 4 41 hd
      (hdl 0 4 (by omega)) (by omega) rfl hseg1
  have hr2 : br_read_bits ⟨Q ++ [128], 4, true⟩ 1 = (1, ⟨Q ++ [128], 5, true⟩) :=
    read_chunk (Q ++ [128]) (picTimingBitsX d f s m h ito) [1] 4 1 41 hd
      (hdl 4 1 (by omega)) (by omega) rfl hseg2
  have hr3 : br_read_bits ⟨Q ++ [128], 5, true⟩ 2 = (0, ⟨Q ++ [128], 7, true⟩) :=
    read_chunk (Q ++ [128]) (picTimingBitsX d f s m h ito) [0, 0] 5 2 41 hd
      (hdl 5 2 (by omega)) (by omega) rfl hseg3
  have hr4 : br_read_bits ⟨Q ++ [128], 7, true⟩ 1 = (0, ⟨Q ++ [128], 8, true⟩) :=
    read_chunk (Q ++ [128]) (picTimingBitsX d f s m h ito) [0] 7 1 41 hd
      (hdl 7 1 (by omega)) (by omega) rfl hseg4
  have hr5 : br_read_bits ⟨Q ++ [128], 8, true⟩ 5 = (0, ⟨Q ++ [128], 13, true⟩) :=
    read_chunk (Q ++ [128]) (picTimingBitsX d f s m h ito) [0, 0, 0, 0, 0] 8 5 41 hd
      (hdl 8 5 (by omega)) (by omega) rfl hseg5
  have hr6 : br_read_bits ⟨Q ++ [128], 13, true⟩ 1 = (1, ⟨Q ++ [128], 14, true⟩) :=
    read_chunk (Q ++ [128]) (picTimingBitsX d f s m h ito) [1] 13 1 41 hd
      (hdl 13 1 (by omega)) (by omega) rfl hseg6
  have hr7 : br_read_bits ⟨Q ++ [128], 14, true⟩ 1 = (0, ⟨Q ++ [128], 15, true⟩) :=
    read_chunk (Q ++ [128]) (picTimingBitsX d f s m h ito) [0] 14 1 41 hd
      (hdl 14 1 (by omega)) (by omega) rfl hseg7
  have hr8 : br_read_bits ⟨Q ++ [128], 15, true⟩ 1
      = (if d then 1 else 0, ⟨Q ++ [128], 16, true⟩) := by
    rw [read_chunk (Q ++ [128]) (picTimingBitsX d f s m h ito) [if d then 1 else 0] 15 1 41 hd
      (hdl 15 1 (by omega)) (by omega) rfl hseg8, bitsVal_single]
  have hr9 : br_read_bits ⟨Q ++ [128], 16, true⟩ 8 = (f, ⟨Q ++ [128], 24, true⟩) := by
    rw [read_chunk (Q ++ [128]) (picTimingBitsX d f s m h ito) (putBitsList (f &&& 255) 8)
      16 8 41 hd (hdl 16 8 (by omega)) (by omega) (putBitsList_length _ _) hseg9,
      bitsVal_putBitsList, Prod.mk.injEq]
    refine ⟨?_, rfl⟩
    rw [(Nat.and_pow_two_sub_one_eq_mod f 8 : f &&& 255 = f % 256)]
    show f % 256 % 256 = f
    omega
  have hr10 : br_read_bits ⟨Q ++ [128], 24, true⟩ 6 = (s, ⟨Q ++ [128], 30, true⟩) := by
    rw [read_chunk (Q ++ [128]) (picTimingBitsX d f s m h ito) (putBitsList (s &&& 63) 6)
      24 6 41 hd (hdl 24 6 (by omega)) (by omega) (putBitsList_length _ _) hseg10,
      bitsVal_putBitsList, Prod.mk.injEq]
    refine ⟨?_, rfl⟩
    rw [(Nat.and_pow_two_sub_one_eq_mod s 6 : s &&& 63 = s % 64)]
    show s % 64 % 64 = s
    omega
  have hr11 : br_read_bits ⟨Q ++ [128], 30, true⟩ 6 = (m, ⟨Q ++ [128], 36, true⟩) := by
    rw [read_chunk (Q ++ [128]) (picTimingBitsX d f s m h ito) (putBitsList (m &&& 63) 6)
      30 6 41 hd (hdl 30 6 (by omega)) (by omega) (putBitsList_length _ _) hseg11,
      bitsVal_putBitsList, Prod.mk.injEq]
    refine ⟨?_, rfl⟩
    rw [(Nat.and_pow_two_sub_one_eq_mod m 6 : m &&& 63 = m % 64)]
    show m % 64 % 64 = m
    omega
  have hr12 : br_read_bits ⟨Q ++ [128], 36, true⟩ 5 = (h, ⟨Q ++ [128], 41, true⟩) := by
    rw [read_chunk (Q ++ [128]) (picTimingBitsX d f s m h ito) (putBitsList (h &&& 31) 5)
      36 5 41 hd (hdl 36 5 (by omega)) (by omega) (putBitsList_length _ _) hseg12,
      bitsVal_putBitsList, Prod.mk.injEq]
    refine ⟨?_, rfl⟩
    rw [(Nat.and_pow_two_sub_one_eq_mod h 5 : h &&& 31 = h % 32)]
    show h % 32 % 32 = h
    omega
  unfold parse_pic_timing_sei
  rw [hfs]
  simp only [hscl, hcond1, hcond2, hdrop, hrbsp, hff1, hff2, hr1, hr2, hr3, hr4, hr5, hr6,
    hr7, hr8, hr9, hr10, hr11, hr12, eq_self_iff_true, if_true, reduceIte, and_self,
    true_and, and_true]

/-- C2: for every timecode with hours ≤ 23, minutes ≤ 59, seconds ≤ 59,
frames ≤ 255 and every drop-frame flag, decoding the SEI NAL produced by
`build_pic_timing_sei_nal` yields a Picture Timing message (payload type 1)
whose `n_frames`, `seconds_value`, `minutes_value` and `hours_value` equal the
source timecode, with `full_timestamp_flag = 1` and `cnt_dropped_flag` equal
to the drop-frame flag. -/
theorem c2_sei_decodes_to_source_timecode (drop_frame : Bool)
    (frame seconds minutes hours : Nat) (include_time_offset : Bool)
    (hf : frame ≤ 255) (hs : seconds ≤ 59) (hm : minutes ≤ 59) (hh : hours ≤ 23) :
    parse_pic_timing_sei
        (build_pic_timing_sei_nal drop_frame frame seconds minutes hours include_time_offset)
      = some ⟨1, 0, 0, 1, 0, if drop_frame then 1 else 0, frame, seconds, minutes, hours⟩ := by
  rw [build_pic_timing_sei_nal_explicit]
  have hplen := pic_timing_payload_len drop_frame frame seconds minutes hours include_time_offset
  have hrep := pic_timing_payload_repr drop_frame frame seconds minutes hours include_time_offset
  have hPlen := picTimingBits_length drop_frame frame seconds minutes hours include_time_offset
  apply parse_pic_timing_core drop_frame frame seconds minutes hours include_time_offset _ _
    hf hs hm hh
  · cases include_time_offset <;> simp
  · rw [hplen]
    cases include_time_offset <;> norm_num
  · intro i hi
    have hb := hrep.hbit i (by rw [hplen]; split <;> omega)
    rw [hb, getD_append_left (by rw [hPlen]; split <;> omega), picTimingBits_eq_X]

theorem c2_sei_decodes_to_source_timecode_witness :
    parse_pic_timing_sei (build_pic_timing_sei_nal true 4 3 2 1 false)
      = some ⟨1, 0, 0, 1, 0, 1, 4, 3, 2, 1⟩ :=
  c2_sei_decodes_to_source_timecode true 4 3 2 1 false (by decide) (by decide) (by decide)
    (by decide)

/-! ## C6: time-offset emission -/

/-- C6 (amended): the `time_offset` field is emitted exactly when HRD
parameters are present (`cpb_dpb_delays_present_flag`) and
`time_offset_length > 0`, but when emitted it always occupies 24 bits (with
value 0) — not `time_offset_length` bits. -/
theorem bw_put_bits_zero (bw : BitWriter) (v : Nat) : bw_put_bits bw v 0 = bw := rfl

theorem c6_time_offset_always_24_bits (info : SpsVuiInfo) (drop_frame : Bool)
    (frame seconds minutes hours : Nat) :
    build_pic_timing_sei_nal_from_sps info drop_frame frame seconds minutes hours
      = pic_timing_sei_nal_spec_ref
          (if info.cpb_dpb_delays_present_flag && decide (0 < info.time_offset_length)
            then 24 else 0)
          drop_frame frame seconds minutes hours := by
  unfold build_pic_timing_sei_nal_from_sps build_pic_timing_sei_nal pic_timing_sei_nal_spec_ref
  cases hcb : (info.cpb_dpb_delays_present_flag && decide (0 < info.time_offset_length)) <;>
    simp only [hcb, if_true, if_false, Bool.false_eq_true, ite_true, ite_false,
      bw_put_bits_zero]

/-- C6 counterexample: for an SpsVuiInfo with HRD present and
`time_offset_length = 5`, the NAL the code builds differs from the one whose
`time_offset` occupies exactly `time_offset_length` bits. -/
theorem c6_time_offset_length_counterexample :
    build_pic_timing_sei_nal_from_sps ⟨true, true, true, 24, 24, 5, true, 1, 50, false⟩
        false 4 3 2 1
      ≠ pic_timing_sei_nal_spec_ref 5 false 4 3 2 1 := by
  decide

/-! ## SPS parsing and patching (`main.c` 945-1248) -/

/-- The signed Exp-Golomb mapping used inline by `parse_sps_vui_info_from_rbsp`
(`(ue & 1) ? (ue + 1) / 2 : -(ue / 2)`). -/
def se_of_ue (ue : Nat) : Int :=
  if ue % 2 = 1 then ((ue + 1) / 2 : Nat) else -((ue / 2 : Nat) : Int)

/-- The parser's scaling-list walk (`main.c` 1115-1127): reads one `se(v)`
delta per coefficient only while `nextScale` is nonzero; `gint` arithmetic is
C truncated `%`. -/
def scan_scaling_real : Nat → Int → Int → BitReader → BitReader
  | 0, _, _, br => br
  | j + 1, lastScale, nextScale, br =>
    if nextScale ≠ 0 then
      let p := br_read_ue br
      let ns := Int.tmod (lastScale + se_of_ue p.1 + 256) 256
      scan_scaling_real j (if ns = 0 then lastScale else ns) ns p.2
    else
      scan_scaling_real j lastScale nextScale br

/-- The patchers' scaling-list skip (`main.c` 965-966, 1021-1022): one plain
`ue(v)` per coefficient, unconditionally. -/
def scan_ue_skip : Nat → BitReader → BitReader
  | 0, br => br
  | n + 1, br => scan_ue_skip n (br_read_ue br).2

/-- The per-matrix loop of the `seq_scaling_matrix` section: a presence bit,
then the handler over the matrix size. -/
def scan_matrix_list (handler : Nat → BitReader → BitReader) :
    List Nat → BitReader → BitReader
  | [], br => br
  | sz :: rest, br =>
    let f := br_read_bits br 1
    scan_matrix_list handler rest (if f.1 ≠ 0 then handler sz f.2 else f.2)

/-- The high-profile `profile_idc` list shared by the three SPS walks. -/
def is_high_profile (p : Nat) : Bool :=
  p == 100 || p == 110 || p == 122 || p == 244 || p == 44 || p == 83 || p == 86 ||
  p == 118 || p == 128 || p == 138 || p == 139 || p == 134 || p == 135

/-- The SPS walk shared (up to the scaling-list handler) by
`parse_sps_vui_info_from_rbsp` and the two patchers: from the start of the
RBSP to just before `vui_parameters_present_flag`. -/
def sps_walk_to_vui (scaling : Nat → BitReader → BitReader) (rbsp : List Nat) : BitReader :=
  let br : BitReader := ⟨rbsp, 0, true⟩
  let r1 := br_read_bits br 8
  let r2 := br_read_bits r1.2 8
  let r3 := br_read_bits r2.2 8
  let r4 := br_read_ue r3.2
  let profile_idc := rbsp.getD 0 0
  let brA :=
    if is_high_profile profile_idc then
      let c := br_read_ue r4.2
      let b1 := if c.1 = 3 then (br_read_bits c.2 1).2 else c.2
      let d1 := br_read_ue b1
      let d2 := br_read_ue d1.2
      let q := br_read_bits d2.2 1
      let sf := br_read_bits q.2 1
      if sf.1 ≠ 0 then
        scan_matrix_list scaling
          ((List.range (if c.1 ≠ 3 then 8 else 12)).map (fun i => if i < 6 then 16 else 64))
          sf.2
      else sf.2
    else r4.2
  let l2 := br_read_ue brA
  let poc := br_read_ue l2.2
  let brB :=
    if poc.1 = 0 then (br_read_ue poc.2).2
    else if poc.1 = 1 then
      let b := br_read_bits poc.2 1
      let u1 := br_read_ue b.2
      let u2 := br_read_ue u1.2
      let nr := br_read_ue u2.2
      scan_ue_skip nr.1 nr.2
    else poc.2
  let mr := br_read_ue brB
  let gp := br_read_bits mr.2 1
  let w := br_read_ue gp.2
  let hg := br_read_ue w.2
  let fm := br_read_bits hg.2 1
  let brC := if fm.1 = 0 then (br_read_bits fm.2 1).2 else fm.2
  let di := br_read_bits brC 1
  let cr := br_read_bits di.2 1
  if cr.1 ≠ 0 then
    let c1 := br_read_ue cr.2
    let c2 := br_read_ue c1.2
    let c3 := br_read_ue c2.2
    (br_read_ue c3.2).2
  else cr.2

/-- The HRD-parameter entry loop (`for i <= cpb_cnt_minus1`). -/
def scan_hrd_entries : Nat → BitReader → BitReader
  | 0, br => br
  | n + 1, br =>
    let a := br_read_ue br
    let b := br_read_ue a.2
    scan_hrd_entries n (br_read_bits b.2 1).2

/-- One `hrd_parameters` block, returning the three lengths it carries
(`cpb_removal_delay_length_minus1`, `dpb_output_delay_length_minus1`,
`time_offset_length`). -/
def read_hrd (br : BitReader) : (Nat × Nat × Nat) × BitReader :=
  let cc := br_read_ue br
  let b1 := br_read_bits cc.2 4
  let b2 := br_read_bits b1.2 4
  let brL := scan_hrd_entries (cc.1 + 1) b2.2
  let i1 := br_read_bits brL 5
  let cl := br_read_bits i1.2 5
  let dl := br_read_bits cl.2 5
  let tl := br_read_bits dl.2 5
  ((cl.1, dl.1, tl.1), tl.2)

/-- `parse_sps_vui_info_from_rbsp` from `main.c` 1092-1224: walk the SPS (with
the real scaling-list semantics), then extract the VUI fields; the C out
parameter and `gboolean` return become the pair. -/
def parse_sps_vui_info_from_rbsp (rbsp : List Nat) : SpsVuiInfo × Bool :=
  let brV := sps_walk_to_vui (fun sz br => scan_scaling_real sz 8 8 br) rbsp
  let vf := br_read_bits brV 1
  if vf.1 = 0 ∨ vf.2.ok = false then
    (⟨vf.1 != 0, true, false, 0, 0, 0, false, 0, 0, false⟩, true)
  else
    let ar := br_read_bits vf.2 1
    let brA :=
      if ar.1 ≠ 0 then
        let idc := br_read_bits ar.2 8
        if idc.1 = 255 then (br_read_bits (br_read_bits idc.2 16).2 16).2 else idc.2
      else ar.2
    let ov := br_read_bits brA 1
    let brB := if ov.1 ≠ 0 then (br_read_bits ov.2 1).2 else ov.2
    let vs := br_read_bits brB 1
    let brC :=
      if vs.1 ≠ 0 then
        let t := br_read_bits vs.2 3
        let cd := br_read_bits t.2 1
        if cd.1 ≠ 0 then (br_read_bits (br_read_bits (br_read_bits cd.2 8).2 8).2 8).2 else cd.2
      else vs.2
    let cl := br_read_bits brC 1
    let brD := if cl.1 ≠ 0 then (br_read_ue (br_read_ue cl.2).2).2 else cl.2
    let ti := br_read_bits brD 1
    let tres : (Bool × Nat × Nat × Bool) × BitReader :=
      if ti.1 ≠ 0 then
        let nu := br_read_bits ti.2 32
        let ts := br_read_bits nu.2 32
        let ff := br_read_bits ts.2 1
        ((true, nu.1, ts.1, ff.1 != 0), ff.2)
      else ((false, 0, 0, false), ti.2)
    let nal := br_read_bits tres.2 1
    let hrd1 : (Nat × Nat × Nat) × BitReader :=
      if nal.1 ≠ 0 then read_hrd nal.2 else ((23, 23, 24), nal.2)
    let vcl := br_read_bits hrd1.2 1
    let hrd2 : (Nat × Nat × Nat) × BitReader :=
      if vcl.1 ≠ 0 then read_hrd vcl.2 else (hrd1.1, vcl.2)
    let brE := if nal.1 ≠ 0 ∨ vcl.1 ≠ 0 then (br_read_bits hrd2.2 1).2 else hrd2.2
    let ps := br_read_bits brE 1
    let cpb := nal.1 ≠ 0 ∨ vcl.1 ≠ 0
    (⟨vf.1 != 0, ps.1 != 0, decide cpb, hrd2.1.1 + 1, hrd2.1.2.1 + 1,
      if cpb then hrd2.1.2.2 else 0,
      tres.1.1, tres.1.2.1, tres.1.2.2.1, tres.1.2.2.2⟩,
     ps.2.ok)

/-- The VUI-skipping walk of `patch_sps_pic_struct_flag_to_one` (`main.c`
978-995): from just after `vui_parameters_present_flag` to just before
`pic_struct_present_flag`. -/
def vui_walk_to_ps (br0 : BitReader) : BitReader :=
  let ar := br_read_bits br0 1
  let brA :=
    if ar.1 ≠ 0 then
      let idc := br_read_bits ar.2 8
      if idc.1 = 255 then (br_read_bits (br_read_bits idc.2 16).2 16).2 else idc.2
    else ar.2
  let ov := br_read_bits brA 1
  let brB := if ov.1 ≠ 0 then (br_read_bits ov.2 1).2 else ov.2
  let vs := br_read_bits brB 1
  let brC :=
    if vs.1 ≠ 0 then
      let t := br_read_bits vs.2 3
      let cd := br_read_bits t.2 1
      if cd.1 ≠ 0 then (br_read_bits (br_read_bits (br_read_bits cd.2 8).2 8).2 8).2 else cd.2
    else vs.2
  let cl := br_read_bits brC 1
  let brD := if cl.1 ≠ 0 then (br_read_ue (br_read_ue cl.2).2).2 else cl.2
  let ti := br_read_bits brD 1
  let brE := if ti.1 ≠ 0 then (br_read_bits (br_read_bits (br_read_bits ti.2 32).2 32).2 1).2 else ti.2
  let nal := br_read_bits brE 1
  let brF := if nal.1 ≠ 0 then (read_hrd nal.2).2 else nal.2
  let vcl := br_read_bits brF 1
  let brG := if vcl.1 ≠ 0 then (read_hrd vcl.2).2 else vcl.2
  if nal.1 ≠ 0 ∨ vcl.1 ≠ 0 then (br_read_bits brG 1).2 else brG

/-- The bit at big-endian position `bitpos` of the byte list, set to 1
(`data[bitpos>>3] |= 1 << (7 - (bitpos&7))`). -/
def set_bit_one (l : List Nat) (bitpos : Nat) : List Nat :=
  l.set (bitpos / 8) (l.getD (bitpos / 8) 0 ||| (1 <<< (7 - bitpos % 8)))

/-- `build_annexb_from_rbsp_and_header` from `main.c` 376-385. -/
def build_annexb_from_rbsp_and_header (rbsp : List Nat) (header_byte : Nat) : List Nat :=
  rbsp.foldl epb_safe_append (epb_safe_append [0, 0, 0, 1] header_byte)

/-- `patch_sps_pic_struct_flag_to_one` from `main.c` 945-1004. -/
def patch_sps_pic_struct_flag_to_one (ebsp : List Nat) (header_byte : Nat) : Option (List Nat) :=
  let rbsp := ebsp_to_rbsp ebsp
  let brV := sps_walk_to_vui (fun sz br => scan_ue_skip sz br) rbsp
  let vf := br_read_bits brV 1
  if vf.2.ok = false ∨ vf.1 = 0 then none
  else
    let brE := vui_walk_to_ps vf.2
    if brE.ok = false then none
    else some (build_annexb_from_rbsp_and_header (set_bit_one rbsp brE.bitpos) header_byte)

/-- Bit-copy loop of `patch_sps_pic_struct_and_timing` (`main.c` 1047-1051). -/
def copy_bits_go : Nat → BitReader → BitWriter → Option BitWriter
  | 0, _, bw => some bw
  | n + 1, br, bw =>
    let p := br_read_bit br
    if p.2.ok = false then none
    else copy_bits_go n p.2 (bw_put_bit bw p.1)

/-- `patch_sps_pic_struct_and_timing` from `main.c` 1007-1088: falls back to
`patch_sps_pic_struct_flag_to_one` when the frame rate is unknown; otherwise
copies the SPS bits up to `vui_parameters_present_flag` and appends a minimal
VUI with the timing information (`time_scale = fps_n * 2` as `guint32`). -/
def patch_sps_pic_struct_and_timing (ebsp : List Nat) (header_byte fps_n fps_d : Nat) :
    Option (List Nat) :=
  if fps_n = 0 ∨ fps_d = 0 then patch_sps_pic_struct_flag_to_one ebsp header_byte
  else
    let rbsp := ebsp_to_rbsp ebsp
    let brV := sps_walk_to_vui (fun sz br => scan_ue_skip sz br) rbsp
    let vui_flag_bitpos := brV.bitpos
    let vf := br_read_bits brV 1
    if vf.2.ok = false then none
    else
      match copy_bits_go vui_flag_bitpos ⟨rbsp, 0, true⟩ ⟨[], 0, 0⟩ with
      | none => none
      | some bw0 =>
        let bw := bw_put_bit bw0 1
        let bw := bw_put_bits bw 0 1
        let bw := bw_put_bits bw 0 1
        let bw := bw_put_bits bw 0 1
        let bw := bw_put_bits bw 0 1
        let bw := bw_put_bits bw 1 1
        let bw := bw_put_bits bw fps_d 32
        let bw := bw_put_bits bw ((fps_n * 2) % 2 ^ 32) 32
        let bw := bw_put_bits bw 1 1
        let bw := bw_put_bits bw 0 1
        let bw := bw_put_bits bw 0 1
        let bw := bw_put_bits bw 1 1
        let bw := bw_put_bits bw 0 1
        let bw := bw_put_rbsp_trailing_bits bw
        some (build_annexb_from_rbsp_and_header bw.bytes header_byte)

/-- Scan loop of `extract_sps_vui_from_au` (`main.c` 1228-1246); the fuel
bounds the iteration count (`pos` advances by at least 3 each round). -/
def extract_sps_vui_from_au_go (annexb : List Nat) : Nat → Nat → Option SpsVuiInfo
  | _, 0 => none
  | pos, fuel + 1 =>
    if pos + 4 < annexb.length then
      match find_startcode annexb pos with
      | none => none
      | some sc =>
        let sl := startcode_len_at annexb sc
        let nal_start := sc + sl
        if nal_start < annexb.length then
          let nal_end :=
            match find_startcode annexb nal_start with
            | none => annexb.length
            | some nx => nx
          if annexb.getD nal_start 0 &&& 31 = 7 then
            let rbsp := ebsp_to_rbsp ((annexb.drop (nal_start + 1)).take (nal_end - (nal_start + 1)))
            let r := parse_sps_vui_info_from_rbsp rbsp
            if r.2 then some r.1 else none
          else extract_sps_vui_from_au_go annexb nal_end fuel
        else none
    else none

/-- `extract_sps_vui_from_au` from `main.c` 1226-1248. -/
def extract_sps_vui_from_au (annexb : List Nat) : Option SpsVuiInfo :=
  extract_sps_vui_from_au_go annexb 0 annexb.length

/-- A well-formed high-profile SPS RBSP whose single scaling list terminates
early (`delta_scale = -8` makes `nextScale = 0` at the first coefficient), with
VUI carrying `timing_info` (`num_units_in_tick = 1`, `time_scale = 50`) and
`pic_struct_present_flag = 1`. -/
def c1_sps_rbsp : List Nat :=
  [0x64, 0x00, 0x1E, 0xF6, 0x11, 0x01, 0xEF, 0x42, 0x00, 0x00, 0x00, 0x02, 0x00, 0x00, 0x00,
   0x65, 0x28]

/-- C1: the SPS walk of `parse_sps_vui_info_from_rbsp` honours the H.264
scaling-list early-termination (`nextScale == 0` stops the delta reads) while
the walk of `patch_sps_pic_struct_and_timing` skips a fixed count of
Exp-Golomb values, so the two desynchronize: on `c1_sps_rbsp` (with
`fps = 25/1 > 0`) the parser succeeds up to and beyond
`vui_parameters_present_flag`, but the patcher's reader fails and the patch
returns `none`, so no patched SPS exists whose re-parse could satisfy the
claimed `pic_struct`/`timing` properties. -/
theorem c1_patcher_scaling_walk_desync :
    (parse_sps_vui_info_from_rbsp c1_sps_rbsp).2 = true
    ∧ (parse_sps_vui_info_from_rbsp c1_sps_rbsp).1.vui_present = true
    ∧ (parse_sps_vui_info_from_rbsp c1_sps_rbsp).1.timing_info_present_flag = true
    ∧ (sps_walk_to_vui (fun sz br => scan_scaling_real sz 8 8 br) c1_sps_rbsp).ok = true
    ∧ (sps_walk_to_vui (fun sz br => scan_ue_skip sz br) c1_sps_rbsp).ok = false
    ∧ patch_sps_pic_struct_and_timing (rbsp_to_ebsp c1_sps_rbsp) 103 25 1 = none := by
  decide

/-! ## The access-unit rewriter (`prepend_h264_sei_timecode`, `main.c` 406-680) -/

/-- The fields of the C `SeiConfig` that `prepend_h264_sei_timecode` reads or
writes (`fps_n`, `fps_d`, `prefer_pts`, `last_pts_ns`, `est_fps`). -/
structure SeiConfig where
  fps_n : Nat
  fps_d : Nat
  prefer_pts : Bool
  last_pts_ns : Nat
  est_fps : Nat
deriving DecidableEq, Repr

/-- The globals `g_last_sps_info`/`g_last_sps_valid` and `g_patched_sps_ebsp`
(`none` playing `NULL`/invalid). -/
structure Globals where
  last_sps_info : Option SpsVuiInfo
  patched_sps_ebsp : Option (List Nat)
deriving DecidableEq, Repr

/-- An upstream `GstVideoTimeCodeMeta` sample (the drop-frame flag from
`GST_VIDEO_TIME_CODE_FLAG_DROP_FRAME`). -/
structure TimeCodeMeta where
  hours : Nat
  minutes : Nat
  seconds : Nat
  frames : Nat
  drop : Bool
deriving DecidableEq, Repr

/-- The PTS-derived timecode of `prepend_h264_sei_timecode` (`main.c`
433-460): `hh:mm:ss` from `pts / 1s`; the frame index from the known frame
rate when `fps_n, fps_d > 0`, else from `est_fps` (updated from the PTS delta
only when the estimate lies in `[12, 120]`), defaulting to 25.  `GstClockTime`
is unsigned 64-bit, so the PTS delta wraps modulo `2^64`; the `guint` casts
never truncate on this path since every quotient fits 32 bits. -/
def derive_tc_from_pts (scfg : SeiConfig) (pts : Nat) :
    (Nat × Nat × Nat × Nat × Bool) × SeiConfig :=
  let sec_total := pts / 1000000000
  let hours := sec_total / 3600 % 24
  let minutes := sec_total / 60 % 60
  let seconds := sec_total % 60
  if 0 < scfg.fps_n ∧ 0 < scfg.fps_d then
    let frame := pts % 1000000000 * scfg.fps_n / (1000000000 * scfg.fps_d)
    let drop := (scfg.fps_n = 30000 ∧ scfg.fps_d = 1001) ∨ (scfg.fps_n = 60000 ∧ scfg.fps_d = 1001)
    ((hours, minutes, seconds, frame, decide drop), scfg)
  else
    let scfg1 : SeiConfig :=
      if scfg.last_pts_ns ≠ 0 then
        let delta :=
          if scfg.last_pts_ns ≤ pts then pts - scfg.last_pts_ns
          else pts + 2 ^ 64 - scfg.last_pts_ns
        if 0 < delta then
          let est := 1000000000 / delta
          if 12 ≤ est ∧ est ≤ 120 then { scfg with est_fps := est } else scfg
        else scfg
      else scfg
    let scfg2 := { scfg1 with last_pts_ns := pts }
    let fps := if scfg2.est_fps ≠ 0 then scfg2.est_fps else 25
    ((hours, minutes, seconds, pts % 1000000000 * fps / 1000000000, false), scfg2)

/-- The `SpsVuiInfo` HRD-clearing applied before building the SEI (`main.c`
474-479 and 497-501). -/
def clear_hrd (info : SpsVuiInfo) : SpsVuiInfo :=
  { info with
    cpb_dpb_delays_present_flag := false
    cpb_removal_delay_length := 0
    dpb_output_delay_length := 0
    time_offset_length := 0 }

/-- Scan loop over the AU's NAL units (`main.c` 527-560): collects
`insert_after_aud`/`aud_end`, `sps_present`, `idr_present`, and
opportunistically builds the patched-SPS cache on the first SPS when the
cache is empty.  State tuple: (patched cache, insert_after_aud, aud_end,
sps_present, idr_present). -/
def au_scan_go (scfg : SeiConfig) (data : List Nat) :
    Nat → Nat → (Option (List Nat) × Bool × Nat × Bool × Bool) →
    Option (List Nat) × Bool × Nat × Bool × Bool
  | _, 0, st => st
  | nal_start, fuel + 1, (cache, iaa, aud_end, sps, idr) =>
    if nal_start < data.length then
      let nal_hdr := data.getD nal_start 0
      let nal_type := nal_hdr &&& 31
      let next :=
        match find_startcode data (nal_start + 1) with
        | none => data.length
        | some nx => nx
      let st1 : Option (List Nat) × Bool × Nat × Bool × Bool :=
        if nal_type = 9 ∧ iaa = false then (cache, true, next, sps, idr)
        else if nal_type = 7 then
          let cache1 :=
            if cache = none ∧ nal_start + 1 < next then
              let fpsn := if scfg.fps_n ≠ 0 then scfg.fps_n
                          else if scfg.est_fps ≠ 0 then scfg.est_fps else 25
              let fpsd := if scfg.fps_d ≠ 0 then scfg.fps_d else 1
              patch_sps_pic_struct_and_timing
                ((data.drop (nal_start + 1)).take (next - (nal_start + 1))) nal_hdr fpsn fpsd
            else cache
          (cache1, iaa, aud_end, true, idr)
        else if nal_type = 5 then (cache, iaa, aud_end, sps, true)
        else (cache, iaa, aud_end, sps, idr)
      if next = data.length then st1
      else au_scan_go scfg data (next + startcode_len_at data next) fuel st1
    else (cache, iaa, aud_end, sps, idr)

/-- Output-assembly tail loop (`main.c` 597-627 and 649-668): append each NAL
from `p` on, replacing the first SPS by the patched one (when cached and not
yet emitted) and dropping further SPS and all SEI NALs. -/
def au_tail_go (data : List Nat) (cache : Option (List Nat)) :
    Nat → Nat → Bool → List Nat → List Nat
  | _, 0, _, out => out
  | p, fuel + 1, sps_replaced, out =>
    if p < data.length then
      match find_startcode data p with
      | none => out
      | some sc =>
        let sl := startcode_len_at data sc
        let nal_start := sc + sl
        if nal_start < data.length then
          let next :=
            match find_startcode data (nal_start + 1) with
            | none => data.length
            | some nx => nx
          let nal_type := data.getD nal_start 0 &&& 31
          let step : Bool × List Nat :=
            if nal_type = 7 then
              match cache with
              | some pl =>
                if sps_replaced = false ∧ 0 < pl.length then (true, out ++ pl)
                else (sps_replaced, out)
              | none => (sps_replaced, out)
            else if nal_type = 6 then (sps_replaced, out)
            else (sps_replaced, out ++ (data.drop sc).take (next - sc))
          au_tail_go data cache next fuel step.1 step.2
        else out
    else out

/-- `prepend_h264_sei_timecode` from `main.c` 406-680 as a pure function of
the upstream timecode meta, the (optional) buffer PTS, the buffer bytes, the
`SeiConfig` and the globals; returns the output buffer bytes and the updated
config and globals. -/
def prepend_h264_sei_timecode (scfg : SeiConfig) (g : Globals)
    (tcmeta : Option TimeCodeMeta) (pts : Option Nat) (inbuf : List Nat) :
    List Nat × SeiConfig × Globals :=
  let sel : (Bool × Nat × Nat × Nat × Nat × Bool) × SeiConfig :=
    match tcmeta with
    | some tc => ((true, tc.hours, tc.minutes, tc.seconds, tc.frames, tc.drop), scfg)
    | none =>
      match pts with
      | some p =>
        if scfg.prefer_pts then
          let r := derive_tc_from_pts scfg p
          ((true, r.1.1, r.1.2.1, r.1.2.2.1, r.1.2.2.2.1, r.1.2.2.2.2), r.2)
        else ((false, 0, 0, 0, 0, false), scfg)
      | none => ((false, 0, 0, 0, 0, false), scfg)
  let scfg1 := sel.2
  if sel.1.1 = false then (inbuf, scfg1, g)
  else
    let hours := sel.1.2.1
    let minutes := sel.1.2.2.1
    let seconds := sel.1.2.2.2.1
    let frame := sel.1.2.2.2.2.1
    let drop_frame := sel.1.2.2.2.2.2
    let bres : List Nat × Globals :=
      match extract_sps_vui_from_au inbuf with
      | some info0 =>
        let info := clear_hrd { info0 with pic_struct_present_flag := true }
        (build_pic_timing_sei_nal_from_sps info drop_frame frame seconds minutes hours,
         { g with last_sps_info := some info })
      | none =>
        match g.last_sps_info with
        | some gi =>
          let gi1 := clear_hrd gi
          (build_pic_timing_sei_nal_from_sps gi1 drop_frame frame seconds minutes hours,
           { g with last_sps_info := some gi1 })
        | none =>
          (build_pic_timing_sei_nal_from_sps ⟨false, false, false, 0, 0, 0, false, 0, 0, false⟩
            drop_frame frame seconds minutes hours, g)
    let sei := bres.1
    let g1 := bres.2
    match find_startcode inbuf 0 with
    | none => (inbuf, scfg1, g1)
    | some pos0 =>
      let sc_len := startcode_len_at inbuf pos0
      let scanst :=
        if 0 < sc_len then
          au_scan_go scfg1 inbuf (pos0 + sc_len) inbuf.length
            (g1.patched_sps_ebsp, false, 0, false, false)
        else (g1.patched_sps_ebsp, false, 0, false, false)
      let cache := scanst.1
      let insert_after_aud := scanst.2.1
      let aud_end := scanst.2.2.1
      let sps_present := scanst.2.2.2.1
      let idr_present := scanst.2.2.2.2
      let g2 := { g1 with patched_sps_ebsp := cache }
      let cache_ok : Bool := match cache with | some pl => decide (0 < pl.length) | none => false
      let inject_patched_sps := cache_ok && (sps_present || idr_present)
      let want_before_sei := cache_ok && (sps_present || inject_patched_sps)
      let cache_bytes := match cache with | some pl => pl | none => []
      if insert_after_aud then
        let out0 := inbuf.take aud_end
        let out1 := if want_before_sei then out0 ++ cache_bytes else out0
        let out2 := if 0 < sei.length then out1 ++ sei else out1
        (au_tail_go inbuf cache aud_end inbuf.length want_before_sei out2, scfg1, g2)
      else
        let out1 := if want_before_sei then cache_bytes else []
        let out2 := if 0 < sei.length then out1 ++ sei else out1
        (au_tail_go inbuf cache 0 inbuf.length want_before_sei out2, scfg1, g2)

/-- NAL-unit type sequence of an Annex B byte stream (proof-side observer). -/
def nal_types_go (data : List Nat) : Nat → Nat → List Nat
  | _, 0 => []
  | pos, fuel + 1 =>
    match find_startcode data pos with
    | none => []
    | some sc =>
      let sl := startcode_len_at data sc
      let ns := sc + sl
      if ns < data.length then (data.getD ns 0 &&& 31) :: nal_types_go data (ns + 1) fuel
      else []

def nal_types (data : List Nat) : List Nat := nal_types_go data 0 data.length

/-! ## Claims C4, C5, C7, C8 -/

/-- An AU whose first NAL is an IDR slice and whose second (last) NAL is an
AUD: `[IDR][AUD]`. -/
def c4_input : List Nat :=
  [0, 0, 0, 1, 0x65, 0x88, 0x84, 0, 0, 0, 1, 0x09, 0xF0]

/-- C4: the scan marks `insert_after_aud` for the first type-9 NAL anywhere in
the AU (not only when it is the AU's first NAL), so on `[IDR][AUD]` the SEI is
appended after the whole AU (`aud_end` ends up at the buffer end) instead of
being prepended as claimed for AUs that do not begin with an AUD. -/
theorem c4_sei_after_trailing_aud :
    (prepend_h264_sei_timecode ⟨0, 0, false, 0, 0⟩ ⟨none, none⟩ (some ⟨1, 2, 3, 4, false⟩)
        none c4_input).1
      = c4_input ++ build_pic_timing_sei_nal false 4 3 2 1 false
    ∧ (prepend_h264_sei_timecode ⟨0, 0, false, 0, 0⟩ ⟨none, none⟩ (some ⟨1, 2, 3, 4, false⟩)
        none c4_input).1
      ≠ build_pic_timing_sei_nal false 4 3 2 1 false ++ c4_input := by
  decide

/-- An AU `[SPS][AUD][IDR]` (baseline-profile SPS, then an access-unit
delimiter, then an IDR slice). -/
def c5_input : List Nat :=
  [0, 0, 0, 1, 0x67, 0x42, 0x00, 0x1E, 0xFB, 0xC8,
   0, 0, 0, 1, 0x09, 0xF0, 0, 0, 0, 1, 0x65, 0x88, 0x84]

/-- C5: on `[SPS][AUD][IDR]` the AUD found mid-AU makes the assembly copy the
whole region up to `aud_end` — original SPS and AUD included — and then also
inject the patched SPS, so the output NAL sequence is `[7, 9, 7, 6, 5]`: two
type-7 NALs, contradicting the claimed at-most-one-SPS invariant. -/
theorem c5_two_sps_in_output :
    nal_types (prepend_h264_sei_timecode ⟨25, 1, false, 0, 0⟩ ⟨none, none⟩
        (some ⟨1, 2, 3, 4, false⟩) none c5_input).1 = [7, 9, 7, 6, 5] := by
  decide

/-- C7: when no Annex B start code exists in the buffer, or when no timecode
is obtainable (no upstream timecode meta and no usable PTS), the rewriter
returns the input bytes unchanged. -/
theorem c7_passthrough (scfg : SeiConfig) (g : Globals) (tcmeta : Option TimeCodeMeta)
    (pts : Option Nat) (data : List Nat) :
    (find_startcode data 0 = none →
      (prepend_h264_sei_timecode scfg g tcmeta pts data).1 = data)
    ∧ (tcmeta = none → scfg.prefer_pts = false ∨ pts = none →
      (prepend_h264_sei_timecode scfg g tcmeta pts data).1 = data) := by
  constructor
  · intro hfs
    rcases tcmeta with _ | tc
    · rcases pts with _ | p
      · simp [prepend_h264_sei_timecode]
      · by_cases hp : scfg.prefer_pts
        · simp [prepend_h264_sei_timecode, hp, hfs]
        · simp [prepend_h264_sei_timecode, hp]
    · simp [prepend_h264_sei_timecode, hfs]
  · intro ht hpp
    subst ht
    rcases pts with _ | p
    · simp [prepend_h264_sei_timecode]
    · rcases hpp with hp | hp
      · simp [prepend_h264_sei_timecode, hp]
      · simp at hp

theorem c7_passthrough_witness :
    (prepend_h264_sei_timecode ⟨0, 0, false, 0, 0⟩ ⟨none, none⟩ none none [1, 2, 3]).1
      = [1, 2, 3] :=
  (c7_passthrough ⟨0, 0, false, 0, 0⟩ ⟨none, none⟩ none none [1, 2, 3]).1 (by decide)

/-- Reference description (amended claim C8) of the `est_fps` update: the
estimate `1s / (pts − last_pts)` is adopted only when it lies inside
`[12, 120]`; otherwise the previous value is kept (it is not clamped). -/
def est_fps_update_ref (scfg : SeiConfig) (pts : Nat) : Nat :=
  if scfg.last_pts_ns = 0 then scfg.est_fps
  else
    let delta :=
      if scfg.last_pts_ns ≤ pts then pts - scfg.last_pts_ns
      else pts + 2 ^ 64 - scfg.last_pts_ns
    if delta = 0 then scfg.est_fps
    else
      let est := 1000000000 / delta
      if 12 ≤ est ∧ est ≤ 120 then est else scfg.est_fps

theorem ite_ne_eq_ite_eq (a b : Nat) : (if a ≠ 0 then a else b) = (if a = 0 then b else a) := by
  by_cases h : a = 0 <;> simp [h]

/-- C8 (amended): from a valid PTS the derived timecode is
`hh = pts/1s/3600 mod 24`, `mm = pts/1s/60 mod 60`, `ss = pts/1s mod 60`; with
a known frame rate the frame index is `(pts mod 1s)·fps_n / (1s·fps_d)`;
otherwise `est_fps` is updated per `est_fps_update_ref` — an out-of-range
estimate is rejected, not clamped to `[12, 120]` — and the frame index is
`(pts mod 1s)·fps / 1s` with `fps` the updated `est_fps`, or 25 when that is
still 0. -/
theorem derive_est_eq (scfg : SeiConfig) (pts : Nat)
    (hf : ¬ (0 < scfg.fps_n ∧ 0 < scfg.fps_d)) (hlast : scfg.last_pts_ns < 2 ^ 64) :
    (derive_tc_from_pts scfg pts).2.est_fps = est_fps_update_ref scfg pts := by
  unfold derive_tc_from_pts est_fps_update_ref
  rw [if_neg hf]
  by_cases h1 : scfg.last_pts_ns = 0
  · simp [h1]
  · by_cases hle : scfg.last_pts_ns ≤ pts
    · by_cases hd : pts - scfg.last_pts_ns = 0
      · simp [h1, hle, hd, Nat.pos_iff_ne_zero]
      · simp [h1, hle, hd, Nat.pos_iff_ne_zero, apply_ite (f := SeiConfig.est_fps)]
        exact fun h2 => absurd h2 (by omega)
    · have hd : ¬ pts + 2 ^ 64 - scfg.last_pts_ns = 0 := by omega
      have hlt : scfg.last_pts_ns < pts + 2 ^ 64 := by omega
      simp only [h1, hle, Nat.pos_iff_ne_zero, apply_ite (f := SeiConfig.est_fps),
        if_neg hle, if_pos hlt, if_neg hd, ite_false, ite_true, if_false, if_true]
      rw [if_pos h1, if_pos hd]

theorem derive_frame_eq (scfg : SeiConfig) (pts : Nat)
    (hf : ¬ (0 < scfg.fps_n ∧ 0 < scfg.fps_d)) :
    (derive_tc_from_pts scfg pts).1.2.2.2.1
      = pts % 1000000000
          * (if (derive_tc_from_pts scfg pts).2.est_fps = 0 then 25
             else (derive_tc_from_pts scfg pts).2.est_fps) / 1000000000 := by
  unfold derive_tc_from_pts
  rw [if_neg hf]
  simp only [ite_ne_eq_ite_eq]

/-- C8 (amended): from a valid PTS the derived timecode is
`hh = pts/1s/3600 mod 24`, `mm = pts/1s/60 mod 60`, `ss = pts/1s mod 60`; with
a known frame rate the frame index is `(pts mod 1s)*fps_n / (1s*fps_d)`;
otherwise `est_fps` is updated per `est_fps_update_ref` — an out-of-range
estimate is rejected, not clamped to `[12, 120]` — and the frame index is
`(pts mod 1s)*fps / 1s` with `fps` the updated `est_fps`, or 25 when that is
still 0. -/
theorem c8_pts_derivation (scfg : SeiConfig) (pts : Nat)
    (hlast : scfg.last_pts_ns < 2 ^ 64) :
    (derive_tc_from_pts scfg pts).1.1 = pts / 1000000000 / 3600 % 24
    ∧ (derive_tc_from_pts scfg pts).1.2.1 = pts / 1000000000 / 60 % 60
    ∧ (derive_tc_from_pts scfg pts).1.2.2.1 = pts / 1000000000 % 60
    ∧ (0 < scfg.fps_n ∧ 0 < scfg.fps_d →
        (derive_tc_from_pts scfg pts).1.2.2.2.1
          = pts % 1000000000 * scfg.fps_n / (1000000000 * scfg.fps_d))
    ∧ (¬ (0 < scfg.fps_n ∧ 0 < scfg.fps_d) →
        (derive_tc_from_pts scfg pts).2.est_fps = est_fps_update_ref scfg pts
        ∧ (derive_tc_from_pts scfg pts).2.last_pts_ns = pts
        ∧ (derive_tc_from_pts scfg pts).1.2.2.2.1
            = pts % 1000000000
                * (if (derive_tc_from_pts scfg pts).2.est_fps = 0 then 25
                   else (derive_tc_from_pts scfg pts).2.est_fps) / 1000000000) := by
  by_cases hf : 0 < scfg.fps_n ∧ 0 < scfg.fps_d
  · unfold derive_tc_from_pts
    rw [if_pos hf]
    exact ⟨rfl, rfl, rfl, fun _ => rfl, fun hc => absurd hf hc⟩
  · refine ⟨?_, ?_, ?_, fun hc => absurd hc hf,
      fun _ => ⟨derive_est_eq scfg pts hf hlast, ?_, derive_frame_eq scfg pts hf⟩⟩ <;>
    · unfold derive_tc_from_pts
      rw [if_neg hf]

theorem c8_pts_derivation_witness :
    (derive_tc_from_pts ⟨25, 1, true, 0, 0⟩ 1000000001).1.2.2.2.1
      = 1000000001 % 1000000000 * 25 / (1000000000 * 1) :=
  (c8_pts_derivation ⟨25, 1, true, 0, 0⟩ 1000000001 (by norm_num)).2.2.2.1 (by decide)

/-- C8 counterexample: with an unknown frame rate, `last_pts = 1` and
`pts = 0.5s`, the PTS-delta estimate is `2` fps — below 12.  The code rejects
it (`est_fps` stays 0, frame index 12 via the 25 fps default); the claimed
clamping to `[12, 120]` would give 12 fps and frame index 6. -/
theorem c8_est_rejected_counterexample :
    (derive_tc_from_pts ⟨0, 0, true, 1, 0⟩ 500000000).1.2.2.2.1 = 12
    ∧ (derive_tc_from_pts ⟨0, 0, true, 1, 0⟩ 500000000).2.est_fps = 0
    ∧ 500000000 % 1000000000 * (max 12 (min 120 (1000000000 / (500000000 - 1))))
        / 1000000000 = 6 := by
  decide
